import Mathlib

/-!
Shallow embedding of the Project Structure Reconciliation Engine of
`git_clone.py` (repository gsw2019/git-clone-automator), together with proofs
checking the natural-language specification against it.

Modelling conventions:
* A filesystem path relative to the project root is a `List String` of
  components; `[]` is the project root itself (Python's `Path(".")`).
* Python `pathlib.Path(s)` normalisation of a relative path string is `pPath`;
  `str(path)` is `pstr` (rendering `[]` as `"."`, as Python does).
* An XML classpath document is `Option (List CPEntry)`: `none` stands for a
  document `xml.etree.ElementTree` fails to parse, `some es` for the list of
  `<classpathentry>` children in document order.  Attributes that may be
  absent (`tag.get(...)` returning Python `None`) are `Option String`.
* A function that can raise an exception the source does not catch returns
  `Option _`, with `none` standing for the uncaught exception (crash).
* Python `set` objects are modelled as duplicate-free lists in first-insertion
  order; iteration order over a set is this list order.
* The `.project` and `.classpath` descriptors are modelled at the project
  root, and the engine is the per-repository reconciliation part of `main`
  (everything after a successful clone), with the four filesystem searches
  given explicit error flags for their `OSError` branches.
-/

/-! ### Source-derived and spec-derived definitions -/

/-- Does the character list start with the given pattern?  (Structural
replacement for `String.startsWith`, so that proofs can evaluate it.) -/
def listStartsWith : List Char → List Char → Bool
  | _, [] => true
  | [], _ :: _ => false
  | a :: s, b :: p => a == b && listStartsWith s p

/-- Does `pat` occur as a contiguous sublist of `s`? -/
def containsSubL (pat : List Char) : List Char → Bool
  | [] => pat.isEmpty
  | a :: rest => listStartsWith (a :: rest) pat || containsSubL pat rest

/-- Python `pat in s` substring test. -/
def containsSub (s pat : String) : Bool := containsSubL pat.toList s.toList

/-- Python `s.startswith(pre)`. -/
def startsWithS (s pre : String) : Bool := listStartsWith s.toList pre.toList

/-- Split a character list at every occurrence of the separator character. -/
def splitCharL (c : Char) : List Char → List (List Char)
  | [] => [[]]
  | a :: rest =>
    if a == c then [] :: splitCharL c rest
    else
      match splitCharL c rest with
      | [] => [[a]]
      | h :: t => (a :: h) :: t

/-- Python `s.split(sep)` for a one-character separator. -/
def pySplit (s : String) (c : Char) : List String :=
  (splitCharL c s.toList).map String.mk

/-- Python whitespace characters stripped by `str.strip()`. -/
def isPyWS (c : Char) : Bool :=
  c == ' ' || c == '\t' || c == '\n' || c == '\r' ||
    c == Char.ofNat 11 || c == Char.ofNat 12

/-- Python `str.strip()`. -/
def pyStrip (s : String) : String :=
  String.mk (((s.toList.dropWhile isPyWS).reverse.dropWhile isPyWS).reverse)

/-- Python `str.lower()` (ASCII case folding). -/
def pyLower (s : String) : String := String.mk (s.toList.map Char.toLower)

/-- Python `str.rstrip(";")`: drop trailing semicolons. -/
def rstripSemi (s : String) : String :=
  String.mk ((s.toList.reverse.dropWhile (fun c => c == ';')).reverse)

/-- Python `Path(s)` for a relative path string: split on `/`, dropping empty
and `.` components. -/
def pPath (s : String) : List String :=
  (pySplit s '/').filter (fun c => !(decide (c = "") || decide (c = ".")))

/-- Python `str(p)` for a relative `Path`: `"."` for the root, otherwise the
components joined by `/`. -/
def pstr : List String → String
  | [] => "."
  | [c] => c
  | c :: rest => c ++ "/" ++ pstr rest

/-- The parent of a relative path (`Path.parent`; the root is its own parent). -/
def pparent (p : List String) : List String := p.dropLast

/-- A `<classpathentry>` element: its `kind` and `path` attributes
(`tag.get` yields `None` when the attribute is absent). -/
structure CPEntry where
  kind : Option String
  path : Option String
deriving DecidableEq

/-- A parsed-or-not `.classpath` document. -/
abbrev CPDoc := Option (List CPEntry)

/-- The entry loop of `is_valid_classpath_file`: `some false` when a known bad
entry is hit, `some true` when the loop completes, `none` when the Python code
raises (`"USER_LIBRARY" in None` / `path_parts[1]` out of range). -/
def validEntriesLoop : List CPEntry → Option Bool
  | [] => some true
  | e :: rest =>
    if e.kind = some "lib" then some false
    else if e.kind = some "con" then
      match e.path with
      | none => none
      | some p =>
        if containsSub p "USER_LIBRARY" then
          match (pySplit p '/').get? 1 with
          | none => none
          | some seg => if seg ≠ "JavaFX" then some false else validEntriesLoop rest
        else if containsSub p "JRE_CONTAINER" then
          if (pySplit p '/').length > 1 then some false else validEntriesLoop rest
        else validEntriesLoop rest
    else validEntriesLoop rest

/-- `is_valid_classpath_file`: parse failure is caught and reported invalid;
`none` models an uncaught exception escaping to the caller. -/
def is_valid_classpath_file : CPDoc → Option Bool
  | none => some false
  | some es => validEntriesLoop es

/-- The entry loop of `get_classpath_src`: first `src`-kind entry whose raw
path string contains `"src"`; `Path("")` (the root, `[]`) when none does;
`none` models the `"src" in None` crash on a path-less `src` entry. -/
def getSrcGo : List CPEntry → Option (List String)
  | [] => some []
  | e :: rest =>
    if e.kind = some "src" then
      match e.path with
      | none => none
      | some p => if containsSub p "src" then some (pPath p) else getSrcGo rest
    else getSrcGo rest

/-- `get_classpath_src`: outer `none` is a crash, `some none` is the Python
`None` returned on parse failure, `some (some p)` a returned path. -/
def get_classpath_src : CPDoc → Option (Option (List String))
  | none => some none
  | some es => (getSrcGo es).map some

/-- Insert into a Python-set-as-list, keeping first-insertion order. -/
def addSetR (l : List (List String)) (x : List String) : List (List String) :=
  if x ∈ l then l else l ++ [x]

/-- The entry loop of `get_all_classpath_sources` with its accumulated set;
`none` models the `Path(None)` crash on a path-less `src` entry. -/
def getAllGo : List CPEntry → List (List String) → Option (List (List String))
  | [], acc => some acc
  | e :: rest, acc =>
    if e.kind = some "src" then
      match e.path with
      | none => none
      | some p => getAllGo rest (addSetR acc (pPath p))
    else getAllGo rest acc

/-- `get_all_classpath_sources`: outer `none` is a crash, `some none` the
Python `None` on parse failure. -/
def get_all_classpath_sources : CPDoc → Option (Option (List (List String)))
  | none => some none
  | some es => (getAllGo es []).map some

/-- `test_src` selection in `move_naked_java_files`: the loop keeps the last
source (in set-iteration order) whose rendered lower-cased path contains
`"test"`. -/
def pickTestSrc (sources : List (List String)) : Option (List String) :=
  sources.foldl
    (fun acc s => if containsSub (pyLower (pstr s)) "test" then some s else acc) none

/-- A `.java` file: its path (last component is the file name) and its lines. -/
structure JFile where
  path : List String
  content : List String
deriving DecidableEq

/-- The mutable part of a project tree: its `.java` files and its directories
(relative to the project root, which always exists and is not listed). -/
structure FS where
  files : List JFile
  dirs : List (List String)
deriving DecidableEq

/-- The comment-line filter shared by `get_java_file_package` and
`is_junit_java_file` (`line.startswith` tests on the raw line). -/
def isCommentLine (l : String) : Bool :=
  startsWithS l "//" || startsWithS l "*" || startsWithS l "/*" ||
    startsWithS l "/**" || startsWithS l "*/"

/-- The line loop of `get_java_file_package`; `none` models the uncaught
`IndexError` of `line.split(" ")[1]` on a line containing `package` with no
second space-separated token. -/
def getPkgGo : List String → Option (Option String)
  | [] => some none
  | l :: rest =>
    if isCommentLine l then getPkgGo rest
    else if containsSub l "package" then
      match (pySplit l ' ').get? 1 with
      | none => none
      | some w => some (some (rstripSemi (pyStrip w)))
    else getPkgGo rest

/-- `get_java_file_package`: scans the first 50 lines. -/
def get_java_file_package (f : JFile) : Option (Option String) :=
  getPkgGo (f.content.take 50)

/-- The line loop of `is_junit_java_file`. -/
def isJunitGo : List String → Bool
  | [] => false
  | l :: rest =>
    if isCommentLine l then isJunitGo rest
    else if containsSub l "@Test" then true else isJunitGo rest

/-- `is_junit_java_file`: looks for `@Test` in the first 50 lines. -/
def is_junit_java_file (f : JFile) : Bool := isJunitGo (f.content.take 50)

/-- The folder a file is recorded under by `find_java_file_folders`: the first
component of its parent (`Path(parent.parts[0])`), or the root sentinel `[]`
(`Path(".")`) when the parent is the root itself. -/
def topFolder (p : List String) : List String :=
  match p.dropLast with
  | [] => []
  | c :: _ => [c]

/-- `find_java_file_folders` (error-free case): the set of recorded folders in
first-insertion order. -/
def find_java_file_folders (files : List JFile) : List (List String) :=
  files.foldl (fun acc f => addSetR acc (topFolder f.path)) []

/-- `find_src_dir` (error-free case): the first directory whose name is
literally `src` (`rglob("src")`), as a root-relative path. -/
def find_src_dir (dirs : List (List String)) : Option (List String) :=
  dirs.find? (fun d => decide (d.getLast? = some "src"))

/-- One structured event per engine action, mirroring the log/IO points of
`git_clone.py`.  `move` records only location-changing moves (an
`os.replace` of a path onto itself leaves the location unchanged). -/
inductive Act where
  | injProj : Act
  | injCp : Act
  | setCp : List String → Act
  | addCp : List String → Act
  | mkDir : List String → Act
  | move : List String → List String → Act
  | failMove : List String → List String → Act
  | delFile : List String → Act
  | renameW : Act
deriving DecidableEq

/-- Relocate the file at `p` to path `t`, overwriting any file already at `t`
(`os.replace` semantics). -/
def moveFile (fs : FS) (p t : List String) : FS :=
  if t = p then fs
  else
    { fs with
      files := (fs.files.filter (fun g => g.path ≠ t)).map
        (fun g => if g.path = p then { g with path := t } else g) }

/-- `Path.move_into(targetDir)`: succeeds when the target directory exists
(the root always does), else raises `OSError`, which every caller in the
source catches and logs — the file stays put. -/
def moveIntoD (fs : FS) (p targetDir : List String) : FS × List Act :=
  let t := targetDir ++ [p.getLast?.getD ""]
  if targetDir = [] ∨ targetDir ∈ fs.dirs then
    if t = p then (fs, []) else (moveFile fs p t, [Act.move p t])
  else (fs, [Act.failMove p t])

/-- The destination `move_naked_java_files` computes for one naked file:
the test source if the file is a test and a test source exists, else the
primary source; with the package name appended as a single component when a
nonempty one is declared (the source's `if package:` is a Python truth test,
so the empty string counts as no package). -/
def nakedDest (es : List CPEntry) (f : JFile) : List String :=
  let sources := (getAllGo es []).getD []
  let src := (getSrcGo es).getD []
  let base :=
    match pickTestSrc sources with
    | some t => if is_junit_java_file f then t else src
    | none => src
  match (get_java_file_package f).getD none with
  | some pkg => if pkg = "" then base else base ++ [pkg]
  | none => base

/-- Process one naked file inside `move_naked_java_files`; `none` propagates a
package-scan crash. -/
def relocOne (es : List CPEntry) (st : FS × List Act) (f : JFile) :
    Option (FS × List Act) :=
  match get_java_file_package f with
  | none => none
  | some _ =>
    some ((moveIntoD st.1 f.path (nakedDest es f)).1,
      st.2 ++ (moveIntoD st.1 f.path (nakedDest es f)).2)

/-- `move_naked_java_files`: re-reads the classpath sources, picks the primary
and test destinations, and tries to move each root-level `.java` file. -/
def move_naked_java_files (fs : FS) (es : List CPEntry) :
    Option (FS × List Act) :=
  match getAllGo es [], getSrcGo es with
  | some _, some _ =>
    let naked := fs.files.filter (fun f => decide (f.path.length = 1))
    naked.foldlM (relocOne es) (fs, [])
  | _, _ => none

/-- The recursion of `set_classpath_source`: rewrite the path of the first
`src`-kind entry; `none` when there is no `src`-kind entry at all. -/
def setCpGo : List CPEntry → List String → Option (List CPEntry)
  | [], _ => none
  | e :: rest, p =>
    if e.kind = some "src" then some ({ e with path := some (pstr p) } :: rest)
    else (setCpGo rest p).map (fun l => e :: l)

/-- `add_classpath_source`: append a new `src` entry for `source`. -/
def add_classpath_source (es : List CPEntry) (p : List String) :
    List CPEntry × List Act :=
  (es ++ [⟨some "src", some (pstr p)⟩], [Act.addCp p])

/-- `set_classpath_source`: edit the first `src` entry, falling back to
`add_classpath_source` when none exists. -/
def set_classpath_source (es : List CPEntry) (p : List String) :
    List CPEntry × List Act :=
  match setCpGo es p with
  | some es' => (es', [Act.setCp p])
  | none => add_classpath_source es p

/-- Python truth test for a single path used by the coverage loop of
`check_classpath_sources` (rendered as a Bool). -/
def coveredB (d : List String) (srcs : List (List String)) : Bool :=
  decide (d ∈ srcs) || decide (pparent d ∈ srcs) ||
    (decide (d ≠ []) && srcs.any (fun s => decide (d ≠ s) && d.isPrefixOf s))

/-- The folder loop of `check_classpath_sources`: uncovered non-root folders
are added to the classpath (and to the local source set); an uncovered root
triggers `move_naked_java_files`. -/
def checkGo : List (List String) → FS → List CPEntry → List (List String) →
    List Act → Option (FS × List CPEntry × List Act)
  | [], fs, es, _, acts => some (fs, es, acts)
  | d :: rest, fs, es, srcs, acts =>
    if coveredB d srcs then checkGo rest fs es srcs acts
    else if d = [] then
      match move_naked_java_files fs es with
      | none => none
      | some (fs', a) => checkGo rest fs' es srcs (acts ++ a)
    else
      checkGo rest fs (es ++ [⟨some "src", some (pstr d)⟩]) (addSetR srcs d)
        (acts ++ [Act.addCp d])

/-- `check_classpath_sources` on a parsed classpath (`jerr` is the `OSError`
flag of `find_java_file_folders`, whose `None` result skips the whole loop;
an empty folder set is likewise falsy in Python and skips it). -/
def check_classpath_sources (jerr : Bool) (fs : FS) (es : List CPEntry) :
    Option (FS × List CPEntry × List Act) :=
  match getAllGo es [] with
  | none => none
  | some srcs =>
    if jerr then some (fs, es, [])
    else
      if find_java_file_folders fs.files = [] then some (fs, es, [])
      else checkGo (find_java_file_folders fs.files) fs es srcs []

/-- `mkdir(exist_ok=True)` for a single directory whose parent exists. -/
def mkdirD (fs : FS) (p : List String) : FS × List Act :=
  if p ∈ fs.dirs then (fs, [])
  else ({ fs with dirs := fs.dirs ++ [p] }, [Act.mkDir p])

/-- `mkdir(parents=True, exist_ok=True)`: create every missing ancestor too. -/
def addPrefixes (dirs : List (List String)) (p : List String) :
    List (List String) :=
  (p.inits.filter (fun q => q ≠ [])).foldl
    (fun ds q => if q ∈ ds then ds else ds ++ [q]) dirs

/-- One file of the `create_src_dir` loop: a declared nonempty package gets a
package directory under the new source root, otherwise the file goes to the
source root itself (`if package_name:` is a Python truth test, so both `None`
and the empty string take the default-package branch); `none` propagates a
package-scan crash. -/
def csdStep (p : List String) (st : FS × List Act) (f : JFile) :
    Option (FS × List Act) :=
  match get_java_file_package f with
  | none => none
  | some (some pkg) =>
    if pkg = "" then
      some ((moveIntoD st.1 f.path p).1, st.2 ++ (moveIntoD st.1 f.path p).2)
    else
      some ((moveIntoD (mkdirD st.1 (p ++ [pkg])).1 f.path (p ++ [pkg])).1,
        st.2 ++ (mkdirD st.1 (p ++ [pkg])).2 ++
          (moveIntoD (mkdirD st.1 (p ++ [pkg])).1 f.path (p ++ [pkg])).2)
  | some none =>
    some ((moveIntoD st.1 f.path p).1, st.2 ++ (moveIntoD st.1 f.path p).2)

/-- `create_src_dir`: make the source directory (with parents), then move
every `.java` file in the snapshot into it, by package when one is declared. -/
def create_src_dir (fs : FS) (p : List String) : Option (FS × List Act) :=
  let a0 : List Act := if p ∈ fs.dirs then [] else [Act.mkDir p]
  let fs0 : FS := { fs with dirs := addPrefixes fs.dirs p }
  fs.files.foldlM (csdStep p) (fs0, a0)

/-- `delete_module_info_java`: unlink the first `module-info.java` found. -/
def delete_module_info_java (fs : FS) : FS × List Act :=
  match fs.files.find? (fun f => decide (f.path.getLast? = some "module-info.java")) with
  | some f =>
    ({ fs with files := fs.files.filter (fun g => g.path ≠ f.path) },
      [Act.delFile f.path])
  | none => (fs, [])

/-- A parsed `.project` document: the text of its first `name` tag (`none`
when there is no `name` tag), and whether a `buildCommand` / `nature` element
occurs anywhere. -/
structure PDoc where
  name : Option String
  hasBuildCommand : Bool
  hasNature : Bool
deriving DecidableEq

/-- A parsed-or-not `.project` document. -/
abbrev PFile := Option PDoc

/-- `is_valid_project_file`: parseable with at least one `buildCommand` and
one `nature` element. -/
def is_valid_project_file : PFile → Bool
  | none => false
  | some p => p.hasBuildCommand && p.hasNature

/-- `rename_project`: overwrite the first `name` tag with the repo name.
Outer `none` models the uncaught exceptions: `ET.parse(None)` when the file
handle is `None`, and `name_tag.text` on a document with no `name` tag.  A
parse failure is caught and leaves the file unwritten. -/
def rename_project (d : Option PFile) (nm : String) :
    Option (Option PFile × List Act) :=
  match d with
  | none => none
  | some none => some (some none, [])
  | some (some pd) =>
    match pd.name with
    | none => none
    | some _ => some (some (some { pd with name := some nm }), [Act.renameW])

/-- Modelled from the spec: the Template Provider's default `.classpath`
content is external to the repository (an `.env`-configured file).  Per the
spec it declares one `src` entry with path `src` and containers for the local
JRE, JUnit 5 and the JavaFX user library. -/
def default_classpath_file : List CPEntry :=
  [⟨some "src", some "src"⟩,
   ⟨some "con", some "org.eclipse.jdt.launching.JRE_CONTAINER"⟩,
   ⟨some "con", some "org.eclipse.jdt.junit.JUNIT_CONTAINER/5"⟩,
   ⟨some "con", some "org.eclipse.jdt.USER_LIBRARY/JavaFX"⟩,
   ⟨some "output", some "bin"⟩]

/-- Modelled from the spec: the Template Provider's default `.project`
content — blank name, at least one `buildCommand` and one `nature`. -/
def default_project_file : PDoc := ⟨some "", true, true⟩

/-- `inject_classpath_file`: copy the template in, then retarget its `src`
entry when the caller passed a source directory other than `src`. -/
def inject_classpath_file (sd : List String) : List CPEntry × List Act :=
  if pstr sd ≠ "src" then
    let (es, a) := set_classpath_source default_classpath_file sd
    (es, Act.injCp :: a)
  else (default_classpath_file, [Act.injCp])

/-- The whole project tree the engine works on: files and directories, the
`.classpath` (absent / unparseable / parsed) and the `.project` likewise. -/
structure St where
  fs : FS
  cp : Option CPDoc
  proj : Option PFile
deriving DecidableEq

/-- `OSError` flags for the four search operations of the prober: `.project`
search, `.classpath` search, `src`-directory search, java-folder scan. -/
structure Flags where
  pErr : Bool
  cErr : Bool
  sErr : Bool
  jErr : Bool
deriving DecidableEq

/-- The `.project` resolution step of `main`: inject the default when the
file is absent or invalid; a search error leaves it untouched. -/
def phaseProject (fl : Flags) (s : St) : St × List Act :=
  if fl.pErr then (s, [])
  else
    match s.proj with
    | some pf =>
      if is_valid_project_file pf then (s, [])
      else ({ s with proj := some (some default_project_file) }, [Act.injProj])
    | none => ({ s with proj := some (some default_project_file) }, [Act.injProj])

/-- The seven-case `match` of `main` over the `.classpath` state and the
`src`-directory state. -/
def phaseCases (fl : Flags) (s : St) : Option (St × List Act) :=
  if fl.cErr then some (s, [])
  else
    match s.cp with
    | some cpf =>
      match (if fl.sErr then none else find_src_dir s.fs.dirs) with
      | some sd =>
        match cpf with
        | none =>
          some ({ s with cp := some (some (inject_classpath_file sd).1) },
            (inject_classpath_file sd).2)
        | some es =>
          match validEntriesLoop es with
          | none => none
          | some false =>
            some ({ s with cp := some (some (inject_classpath_file sd).1) },
              (inject_classpath_file sd).2)
          | some true =>
            match getSrcGo es with
            | none => none
            | some g =>
              if g ≠ sd then
                some ({ s with cp := some (some (set_classpath_source es sd).1) },
                  (set_classpath_source es sd).2)
              else some (s, [])
      | none =>
        if fl.sErr then
          match cpf with
          | none =>
            some ({ s with cp := some (some (inject_classpath_file ["src"]).1) },
              (inject_classpath_file ["src"]).2)
          | some es =>
            match validEntriesLoop es with
            | none => none
            | some false =>
              some ({ s with cp := some (some (inject_classpath_file ["src"]).1) },
                (inject_classpath_file ["src"]).2)
            | some true => some (s, [])
        else
          match cpf with
          | none =>
            match create_src_dir s.fs ["src"] with
            | none => none
            | some (fs2, a2) =>
              some ({ s with cp := some (some (inject_classpath_file ["src"]).1), fs := fs2 },
                (inject_classpath_file ["src"]).2 ++ a2)
          | some es =>
            match validEntriesLoop es with
            | none => none
            | some false =>
              match create_src_dir s.fs ["src"] with
              | none => none
              | some (fs2, a2) =>
                some ({ s with cp := some (some (inject_classpath_file ["src"]).1), fs := fs2 },
                  (inject_classpath_file ["src"]).2 ++ a2)
            | some true =>
              match getSrcGo es with
              | none => none
              | some g =>
                if pstr g ≠ "." then
                  match create_src_dir s.fs g with
                  | none => none
                  | some (fs2, a2) => some ({ s with fs := fs2 }, a2)
                else some (s, [])
    | none =>
      match (if fl.sErr then none else find_src_dir s.fs.dirs) with
      | some sd =>
        some ({ s with cp := some (some (inject_classpath_file sd).1) },
          (inject_classpath_file sd).2)
      | none =>
        if fl.sErr then
          some ({ s with cp := some (some (inject_classpath_file ["src"]).1) },
            (inject_classpath_file ["src"]).2)
        else
          match create_src_dir s.fs ["src"] with
          | none => none
          | some (fs2, a2) =>
            some ({ s with cp := some (some (inject_classpath_file ["src"]).1), fs := fs2 },
              (inject_classpath_file ["src"]).2 ++ a2)

/-- The coverage step of `main`: run `check_classpath_sources` unless the
`.classpath` search itself errored.  An absent or unparseable classpath here
makes the Python code raise (outside the error-flag branch this cannot be
reached from `main`'s earlier steps). -/
def phaseCheck (fl : Flags) (s : St) : Option (St × List Act) :=
  if fl.cErr then some (s, [])
  else
    match s.cp with
    | some (some es) =>
      match check_classpath_sources fl.jErr s.fs es with
      | none => none
      | some (fs', es', a) => some ({ s with fs := fs', cp := some (some es') }, a)
    | some none =>
      if fl.jErr ∨ find_java_file_folders s.fs.files = [] then some (s, [])
      else none
    | none => none

/-- The module-info deletion step of `main`. -/
def phaseDelete (s : St) : St × List Act :=
  ({ s with fs := (delete_module_info_java s.fs).1 },
    (delete_module_info_java s.fs).2)

/-- The final rename step of `main`. -/
def phaseRename (nm : String) (s : St) : Option (St × List Act) :=
  match rename_project s.proj nm with
  | none => none
  | some (p', a) => some ({ s with proj := p' }, a)

/-- One full engine run (`main`'s per-repository body after a successful
clone): `.project` resolution, the seven-case classpath/src decision, the
coverage check, module-info removal, and the rename.  Returns `none` with the
actions so far when an uncaught exception aborts the run. -/
def runEngine (fl : Flags) (nm : String) (s0 : St) : Option St × List Act :=
  let r1 := phaseProject fl s0
  match phaseCases fl r1.1 with
  | none => (none, r1.2)
  | some r2 =>
    match phaseCheck fl r2.1 with
    | none => (none, r1.2 ++ r2.2)
    | some r3 =>
      match phaseRename nm (phaseDelete r3.1).1 with
      | none => (none, r1.2 ++ r2.2 ++ r3.2 ++ (phaseDelete r3.1).2)
      | some r5 =>
        (some r5.1, r1.2 ++ r2.2 ++ r3.2 ++ (phaseDelete r3.1).2 ++ r5.2)

/-- Covered, as the spec defines it: `D` itself, `D`'s immediate parent, or
any ancestor of `D` appears in the CoverageSet. -/
def specCovered (d : List String) (srcs : List (List String)) : Prop :=
  d ∈ srcs ∨ pparent d ∈ srcs ∨ ∃ s ∈ srcs, s <+: d ∧ s ≠ d

/-- Decidable rendering of `specCovered`. -/
def specCoveredB (d : List String) (srcs : List (List String)) : Bool :=
  decide (d ∈ srcs) || decide (pparent d ∈ srcs) ||
    srcs.any (fun s => s.isPrefixOf d && !(decide (s = d)))

/-- The claim's invalidity conditions for one `con` entry path: a user-library
reference naming a library other than JavaFX, or (otherwise) a JRE container
with additional path segments after the container name. -/
def specBadConPath (p : String) : Bool :=
  if containsSub p "USER_LIBRARY" then
    match (pySplit p '/').get? 1 with
    | some seg => decide (seg ≠ "JavaFX")
    | none => false
  else if containsSub p "JRE_CONTAINER" then decide ((pySplit p '/').length > 1)
  else false

/-- The claim's classpath-invalidity predicate: parse failure, a `lib` entry,
or a bad `con` entry path. -/
def specClasspathInvalid : CPDoc → Bool
  | none => true
  | some es =>
    es.any (fun e =>
      decide (e.kind = some "lib") ||
        (decide (e.kind = some "con") && specBadConPath (e.path.getD "")))

/-- The claim's characterisation of the primary source lookup: the path of the
first `src`-kind entry whose path contains `"src"`, else the root. -/
def specPrimarySrc (es : List CPEntry) : List String :=
  match es.find? (fun e => decide (e.kind = some "src") && containsSub (e.path.getD "") "src") with
  | some e => pPath (e.path.getD "")
  | none => []

/-- Every `con` entry carries a `path`, and a `USER_LIBRARY` reference in it
has a second `/`-separated segment (the inputs on which the validator does
not raise). -/
def WfConB (es : List CPEntry) : Bool :=
  es.all (fun e =>
    if e.kind = some "con" then
      match e.path with
      | none => false
      | some p => !(containsSub p "USER_LIBRARY") || decide (2 ≤ (pySplit p '/').length)
    else true)

/-- Every `src`-kind entry carries a `path` attribute. -/
def WfSrcB (es : List CPEntry) : Bool :=
  es.all (fun e => !(decide (e.kind = some "src")) || e.path.isSome)

/-- Scenario A's initial tree: an empty root, no descriptors, one root-level
source file declaring group `com.x`. -/
def scenarioA : St := ⟨⟨[⟨["Foo.java"], ["package com.x;"]⟩], []⟩, none, none⟩

/-- Classpath-repair actions: descriptor injection, source-path edits,
source-directory creation, and relocation moves. -/
def isCpRepairAct : Act → Bool
  | Act.injCp => true
  | Act.setCp _ => true
  | Act.addCp _ => true
  | Act.mkDir _ => true
  | Act.move _ _ => true
  | Act.failMove _ _ => true
  | _ => false

/-- A tree the engine has nothing left to repair: valid project descriptor
with a name tag, valid parsed classpath whose primary source path agrees with
the found source directory (or is the root when none is found), every
source-file folder covered, and no `module-info.java`. -/
def ReconInv (s : St) : Prop :=
  (∃ pd, s.proj = some (some pd) ∧ pd.hasBuildCommand = true ∧
    pd.hasNature = true ∧ pd.name.isSome = true) ∧
  (∃ es srcs, s.cp = some (some es) ∧ validEntriesLoop es = some true ∧
    getAllGo es [] = some srcs ∧
    (∀ d ∈ find_java_file_folders s.fs.files, coveredB d srcs = true) ∧
    (match find_src_dir s.fs.dirs with
     | some sd => getSrcGo es = some sd
     | none => getSrcGo es = some [])) ∧
  (∀ f ∈ s.fs.files, f.path.getLast? ≠ some "module-info.java")

/-- The tree of the C9 counterexample: a naked `@Test` file, a populated
`tester` directory, a valid classpath declaring only the source path `x`,
and a valid named project descriptor. -/
def c9tree : St :=
  ⟨⟨[⟨["T.java"], ["@Test"]⟩, ⟨["tester", "A.java"], ["// a"]⟩], [["tester"]]⟩,
    some (some [⟨some "src", some "x"⟩]), some (some ⟨some "old", true, true⟩)⟩

/-- The state after the first engine run on `c9tree`. -/
def c9mid : St :=
  ((runEngine ⟨false, false, false, false⟩ "n" c9tree).1).getD c9tree

/-- A well-formed path component: nonempty, not `.`, and free of `/` (so that
`Path(str(...))` round-trips). -/
def WfCompB (c : String) : Bool :=
  !(decide (c = "")) && !(decide (c = ".")) && decide (pySplit c '/' = [c])

/-- All components well-formed. -/
def WfPathB (p : List String) : Bool := p.all WfCompB

/-- `p` is the normalised path of some `src`-kind classpath entry. -/
def declaredSrc (es : List CPEntry) (p : List String) : Prop :=
  ∃ e ∈ es, e.kind = some "src" ∧ ∃ str, e.path = some str ∧ pPath str = p

/-- The weak cover the code actually establishes for a top-level component:
it is declared, or the root is declared, or it is an ancestor (prefix) of a
declared entry. -/
def topCovered (c : String) (es : List CPEntry) : Prop :=
  declaredSrc es [c] ∨ declaredSrc es [] ∨
    ∃ s, declaredSrc es s ∧ [c] <+: s ∧ [c] ≠ s

/-- A file whose top-level path component the coverage check can handle:
below a well-formed first component, or below an ancestor of a declared
source entry. -/
def GoodFile (es : List CPEntry) (f : JFile) : Prop :=
  ∃ c rest, f.path = c :: rest ∧ rest ≠ [] ∧
    (WfCompB c = true ∨ ∃ s, declaredSrc es s ∧ [c] <+: s)

/-- The tree of the C1 counterexample: a source file at `a/b/F.java` and a
valid classpath declaring the single source entry `a/x`. -/
def c1tree : St :=
  ⟨⟨[⟨["a", "b", "F.java"], ["// c"]⟩], [["a"], ["a", "b"], ["a", "x"]]⟩,
    some (some [⟨some "src", some "a/x"⟩]), some (some ⟨some "p", true, true⟩)⟩

/-- The tree of the C1 witness: Scenario B — sources under `src` and `lib`,
classpath declaring only `src`. -/
def c1wtree : St :=
  ⟨⟨[⟨["src", "A.java"], ["// c"]⟩, ⟨["lib", "U.java"], ["// c"]⟩],
      [["src"], ["lib"]]⟩,
    some (some [⟨some "src", some "src"⟩]),
    some (some ⟨some "p", true, true⟩)⟩

/-! ### Lemmas, claim theorems, counterexamples and witnesses -/

theorem mem_addSetR {acc : List (List String)} {x d : List String} :
    d ∈ addSetR acc x ↔ d ∈ acc ∨ d = x := by
  unfold addSetR
  split
  · next h => constructor
              · exact Or.inl
              · rintro (h1 | rfl)
                · exact h1
                · exact h
  · simp [List.mem_append]

theorem nodup_addSetR {acc : List (List String)} {x : List String}
    (h : acc.Nodup) : (addSetR acc x).Nodup := by
  unfold addSetR
  split
  · exact h
  · next hx => simp [List.nodup_append, h, hx]

theorem find_folders_go_mem (files : List JFile) (acc : List (List String))
    (d : List String) :
    d ∈ files.foldl (fun acc f => addSetR acc (topFolder f.path)) acc ↔
      d ∈ acc ∨ ∃ f ∈ files, topFolder f.path = d := by
  induction files generalizing acc with
  | nil => simp
  | cons f fs ih =>
    simp only [List.foldl_cons, ih, mem_addSetR, List.mem_cons]
    constructor
    · rintro ((h | h) | ⟨g, hg, hgd⟩)
      · exact Or.inl h
      · exact Or.inr ⟨f, Or.inl rfl, h.symm⟩
      · exact Or.inr ⟨g, Or.inr hg, hgd⟩
    · rintro (h | ⟨g, (rfl | hg), hgd⟩)
      · exact Or.inl (Or.inl h)
      · exact Or.inl (Or.inr hgd.symm)
      · exact Or.inr ⟨g, hg, hgd⟩

theorem find_folders_go_nodup (files : List JFile) (acc : List (List String))
    (h : acc.Nodup) :
    (files.foldl (fun acc f => addSetR acc (topFolder f.path)) acc).Nodup := by
  induction files generalizing acc with
  | nil => simpa
  | cons f fs ih => exact ih _ (nodup_addSetR h)

theorem mem_find_java_file_folders {files : List JFile} {d : List String} :
    d ∈ find_java_file_folders files ↔ ∃ f ∈ files, topFolder f.path = d := by
  unfold find_java_file_folders
  rw [find_folders_go_mem]
  simp

/-- C5 (corrected): the source-file search does not record the immediate
containing directory.  For the single file `a/b/F.java`, whose immediate
containing directory relative to the root is `a/b`, the recorded folder set
is `{a}` and does not contain `a/b`. -/
theorem C5_counterexample :
    find_java_file_folders [⟨["a", "b", "F.java"], []⟩] = [["a"]] ∧
      pparent ["a", "b", "F.java"] = ["a", "b"] ∧
      ["a", "b"] ∉ find_java_file_folders [⟨["a", "b", "F.java"], []⟩] := by
  decide

/-- C5 (amended): the source-file search maps every file found to the
top-level component of its containing directory (the root sentinel `[]` for a
file directly at the project root), and reduces the results to a
duplicate-free set. -/
theorem C5_theorem (files : List JFile) (d : List String) :
    (d ∈ find_java_file_folders files ↔ ∃ f ∈ files, topFolder f.path = d) ∧
      (find_java_file_folders files).Nodup := by
  exact ⟨mem_find_java_file_folders, find_folders_go_nodup files [] List.nodup_nil⟩

/-- C6 (code bug): the classpath validator does not return a boolean on every
input document.  On a parseable document whose single `con` entry has path
`USER_LIBRARY` (no `/`), `path.split('/')[1]` raises an uncaught
`IndexError`, modelled by the `none` result. -/
theorem C6_crash :
    is_valid_classpath_file (some [⟨some "con", some "USER_LIBRARY"⟩]) = none := by
  decide

theorem get1_of_two_le {α : Type} {l : List α} (h : 2 ≤ l.length) :
    ∃ x, l.get? 1 = some x := by
  cases l with
  | nil => simp at h
  | cons a t =>
    cases t with
    | nil => simp at h
    | cons b t2 => exact ⟨b, rfl⟩

/-- C4 (counterexample): on the parseable document with the single entry
`kind="con" path="USER_LIBRARY"`, none of the claim's invalidity conditions
holds, so the claim demands a `valid` verdict — but the validator does not
return one (it raises `IndexError`, modelled by `none`). -/
theorem C4_counterexample :
    is_valid_classpath_file (some [⟨some "con", some "USER_LIBRARY"⟩]) ≠ some true ∧
      specClasspathInvalid (some [⟨some "con", some "USER_LIBRARY"⟩]) = false := by
  decide

theorem validLoop_spec (es : List CPEntry) (hw : WfConB es = true) :
    validEntriesLoop es =
      some (!es.any (fun e => decide (e.kind = some "lib") ||
        (decide (e.kind = some "con") && specBadConPath (e.path.getD "")))) := by
  induction es with
  | nil => rfl
  | cons e rest ih =>
    rw [WfConB, List.all_cons, Bool.and_eq_true] at hw
    obtain ⟨hwe, hwr⟩ := hw
    have ihr := ih hwr
    by_cases hlib : e.kind = some "lib"
    · simp [validEntriesLoop, hlib]
    · by_cases hcon : e.kind = some "con"
      · rw [if_pos hcon] at hwe
        obtain ⟨p, hp⟩ : ∃ p, e.path = some p := by
          cases hpp : e.path with
          | none => rw [hpp] at hwe; simp at hwe
          | some q => exact ⟨q, rfl⟩
        have hwe2 : (!containsSub p "USER_LIBRARY" ||
            decide (2 ≤ (pySplit p '/').length)) = true := by
          rw [hp] at hwe; exact hwe
        by_cases hul : containsSub p "USER_LIBRARY" = true
        · have hlen : 2 ≤ (pySplit p '/').length := by
            rw [hul] at hwe2; simpa using hwe2
          obtain ⟨seg, hseg⟩ := get1_of_two_le hlen
          have hseg2 : (pySplit p '/')[1]? = some seg := by
            rw [← List.get?_eq_getElem?]; exact hseg
          by_cases hjfx : seg = "JavaFX"
          · have hbad : specBadConPath p = false := by
              rw [specBadConPath, if_pos hul, hseg]; simp [hjfx]
            simp [validEntriesLoop, hlib, hcon, hp, hul, hseg2, hjfx, hbad, ihr]
          · have hbad : specBadConPath p = true := by
              rw [specBadConPath, if_pos hul, hseg]; simp [hjfx]
            simp [validEntriesLoop, hlib, hcon, hp, hul, hseg2, hjfx, hbad]
        · by_cases hjre : containsSub p "JRE_CONTAINER" = true
          · by_cases hlen : (pySplit p '/').length > 1
            · have hbad : specBadConPath p = true := by
                rw [specBadConPath, if_neg hul, if_pos hjre]; simp [hlen]
              simp [validEntriesLoop, hlib, hcon, hp, hul, hjre, hlen, hbad]
            · have hbad : specBadConPath p = false := by
                rw [specBadConPath, if_neg hul, if_pos hjre]; simp [hlen]
              simp [validEntriesLoop, hlib, hcon, hp, hul, hjre, hlen, hbad, ihr]
          · have hbad : specBadConPath p = false := by
              rw [specBadConPath, if_neg hul, if_neg hjre]
            simp [validEntriesLoop, hlib, hcon, hp, hul, hjre, hbad, ihr]
      · simp [validEntriesLoop, hlib, hcon, ihr]

/-- C4 (amended): on every document in which each `con` entry carries a path
attribute whose `USER_LIBRARY` references have a second `/`-segment, the
validator returns `invalid` exactly when the document fails to parse, some
entry has kind `lib`, some `con` path names a user library other than JavaFX,
or some `con` path is a JRE container with extra segments — and `valid`
otherwise.  (On the excluded documents it raises instead of returning.) -/
theorem C4_theorem (d : CPDoc) (h : ∀ es, d = some es → WfConB es = true) :
    is_valid_classpath_file d = some (!specClasspathInvalid d) := by
  cases d with
  | none => rfl
  | some es => exact validLoop_spec es (h es rfl)

/-- C4 witness: the amended equivalence applied to a concrete well-formed
document with a machine-specific JRE pointer, which is judged invalid. -/
theorem C4_witness :
    is_valid_classpath_file
        (some [⟨some "src", some "src"⟩,
               ⟨some "con", some "JRE_CONTAINER/StandardVMType/JavaSE-17"⟩]) =
      some (!specClasspathInvalid
        (some [⟨some "src", some "src"⟩,
               ⟨some "con", some "JRE_CONTAINER/StandardVMType/JavaSE-17"⟩])) := by
  exact C4_theorem _ (fun es he => by cases he; decide)

theorem getSrcGo_spec (es : List CPEntry) (hw : WfSrcB es = true) :
    getSrcGo es = some (specPrimarySrc es) := by
  induction es with
  | nil => rfl
  | cons e rest ih =>
    rw [WfSrcB, List.all_cons, Bool.and_eq_true] at hw
    obtain ⟨hwe, hwr⟩ := hw
    have ihr := ih hwr
    by_cases hk : e.kind = some "src"
    · obtain ⟨p, hp⟩ : ∃ p, e.path = some p := by
        cases hpp : e.path with
        | none => rw [hk, hpp] at hwe; simp at hwe
        | some q => exact ⟨q, rfl⟩
      by_cases hcs : containsSub p "src" = true
      · simp [getSrcGo, specPrimarySrc, hk, hp, hcs, List.find?]
      · simp [getSrcGo, specPrimarySrc, hk, hp, hcs, List.find?] at ihr ⊢
        exact ihr
    · simp [getSrcGo, specPrimarySrc, hk, List.find?] at ihr ⊢
      exact ihr

/-- C10 (counterexample): on the parseable document whose single `src` entry
carries no `path` attribute, the claim demands that the empty (root) path be
returned — but the lookup raises `TypeError` (`"src" in None`) instead,
modelled by the `none` result. -/
theorem C10_counterexample :
    get_classpath_src (some [⟨some "src", none⟩]) = none ∧
      specPrimarySrc [⟨some "src", none⟩] = [] := by
  decide

/-- C10 (amended): for every parseable classpath document in which each
`src`-kind entry carries a path attribute, the lookup returns the path of the
first `src`-kind entry whose raw path string contains `"src"`, and the empty
(root) path when no such entry exists — even when other `src`-kind entries
are declared; it returns the Python `None` exactly on parse failure. -/
theorem C10_theorem (d : CPDoc) (h : ∀ es, d = some es → WfSrcB es = true) :
    get_classpath_src d =
      some (match d with
            | none => none
            | some es => some (specPrimarySrc es)) := by
  cases d with
  | none => rfl
  | some es =>
    simp only [get_classpath_src]
    rw [getSrcGo_spec es (h es rfl)]
    rfl

/-- C10 witness: the amended characterisation applied to a document whose
first `src` entry does not mention `src` and whose second does. -/
theorem C10_witness :
    get_classpath_src (some [⟨some "src", some "foo"⟩, ⟨some "src", some "mysrc"⟩]) =
      some (some (specPrimarySrc [⟨some "src", some "foo"⟩, ⟨some "src", some "mysrc"⟩])) := by
  exact C10_theorem _ (fun es he => by cases he; decide)

/-- C7 (counterexample): after the run on Scenario A the engine succeeds, but
no file sits at `src/com/x/Foo.java`; the group name is used as one literal
directory component, so the file is at `src/com.x/Foo.java`. -/
theorem C7_counterexample :
    ∃ s' acts,
      runEngine ⟨false, false, false, false⟩ "p1" scenarioA = (some s', acts) ∧
        (∀ f ∈ s'.fs.files, f.path ≠ ["src", "com", "x", "Foo.java"]) ∧
        (⟨["src", "com.x", "Foo.java"], ["package com.x;"]⟩ : JFile) ∈ s'.fs.files := by
  refine ⟨_, _, rfl, ?_, ?_⟩ <;> decide

/-- C7 (amended): starting from an empty root with no descriptors and a
single root-level source file declaring group `com.x`, a run ends with that
file at `src/com.x/` (one directory literally named by the dotted group
name), the classpath holding exactly one `src`-kind entry with path `src`,
and the project descriptor present with its display-name set to the
project's name. -/
theorem C7_theorem (nm : String) :
    ∃ s' acts,
      runEngine ⟨false, false, false, false⟩ nm scenarioA = (some s', acts) ∧
        s'.fs.files = [⟨["src", "com.x", "Foo.java"], ["package com.x;"]⟩] ∧
        (∃ es, s'.cp = some (some es) ∧
          es.filter (fun e => decide (e.kind = some "src")) = [⟨some "src", some "src"⟩]) ∧
        s'.proj = some (some ⟨some nm, true, true⟩) := by
  exact ⟨_, _, rfl, rfl, ⟨default_classpath_file, rfl, rfl⟩, rfl⟩

theorem isCpRepairAct_ne_injProj {a : Act} (h : isCpRepairAct a = true) :
    a ≠ Act.injProj := by
  intro he
  subst he
  simp [isCpRepairAct] at h

theorem moveIntoD_acts {fs : FS} {p t : List String} :
    ∀ a ∈ (moveIntoD fs p t).2, isCpRepairAct a = true := by
  intro a ha
  simp only [moveIntoD] at ha
  split at ha
  · split at ha
    · simp at ha
    · simp at ha; subst ha; rfl
  · simp at ha; subst ha; rfl

theorem mkdirD_acts {fs : FS} {p : List String} :
    ∀ a ∈ (mkdirD fs p).2, isCpRepairAct a = true := by
  intro a ha
  simp only [mkdirD] at ha
  split at ha
  · simp at ha
  · simp at ha; subst ha; rfl

theorem foldlM_acts {step : FS × List Act → JFile → Option (FS × List Act)}
    {P : Act → Prop}
    (hstep : ∀ st f r, step st f = some r → (∀ a ∈ st.2, P a) → ∀ a ∈ r.2, P a) :
    ∀ (L : List JFile) (st r), List.foldlM step st L = some r →
      (∀ a ∈ st.2, P a) → ∀ a ∈ r.2, P a := by
  intro L
  induction L with
  | nil =>
    intro st r h hs
    simp only [List.foldlM_nil, pure, Option.some.injEq] at h
    subst h; exact hs
  | cons f fs ih =>
    intro st r h hs
    rw [List.foldlM_cons] at h
    cases hstep1 : step st f with
    | none => rw [hstep1] at h; simp at h
    | some st1 =>
      rw [hstep1] at h
      simp only [Option.bind_eq_bind, Option.some_bind] at h
      exact ih st1 r h (hstep _ _ _ hstep1 hs)

theorem relocOne_acts {es : List CPEntry} {st : FS × List Act} {f : JFile}
    {r : FS × List Act} (h : relocOne es st f = some r)
    (hs : ∀ a ∈ st.2, isCpRepairAct a = true) :
    ∀ a ∈ r.2, isCpRepairAct a = true := by
  simp only [relocOne] at h
  split at h
  · exact absurd h (by simp)
  · simp only [Option.some.injEq] at h
    subst h
    intro a ha
    simp only [List.mem_append] at ha
    rcases ha with ha | ha
    · exact hs a ha
    · exact moveIntoD_acts a ha

theorem move_naked_acts {fs : FS} {es : List CPEntry} {fs' : FS}
    {acts : List Act} (h : move_naked_java_files fs es = some (fs', acts)) :
    ∀ a ∈ acts, isCpRepairAct a = true := by
  simp only [move_naked_java_files] at h
  split at h
  · have := foldlM_acts (P := fun a => isCpRepairAct a = true)
      (fun st f r hr hs => relocOne_acts hr hs) _ _ _ h (by simp)
    exact this
  · exact absurd h (by simp)

theorem csdStep_acts {p : List String} {st : FS × List Act} {f : JFile}
    {r : FS × List Act} (h : csdStep p st f = some r)
    (hs : ∀ a ∈ st.2, isCpRepairAct a = true) :
    ∀ a ∈ r.2, isCpRepairAct a = true := by
  simp only [csdStep] at h
  split at h
  · exact absurd h (by simp)
  · split at h
    · simp only [Option.some.injEq] at h
      subst h
      intro a ha
      simp only [List.mem_append] at ha
      rcases ha with ha | ha
      · exact hs a ha
      · exact moveIntoD_acts a ha
    · simp only [Option.some.injEq] at h
      subst h
      intro a ha
      simp only [List.mem_append] at ha
      rcases ha with (ha | ha) | ha
      · exact hs a ha
      · exact mkdirD_acts a ha
      · exact moveIntoD_acts a ha
  · simp only [Option.some.injEq] at h
    subst h
    intro a ha
    simp only [List.mem_append] at ha
    rcases ha with ha | ha
    · exact hs a ha
    · exact moveIntoD_acts a ha

theorem create_src_dir_acts {fs : FS} {p : List String} {fs' : FS}
    {acts : List Act} (h : create_src_dir fs p = some (fs', acts)) :
    ∀ a ∈ acts, isCpRepairAct a = true := by
  simp only [create_src_dir] at h
  refine foldlM_acts (P := fun a => isCpRepairAct a = true)
    (fun st f r hr hs => csdStep_acts hr hs) _ _ _ h ?_
  intro a ha
  split at ha
  · simp at ha
  · simp at ha; subst ha; rfl

theorem set_classpath_source_acts {es : List CPEntry} {p : List String} :
    ∀ a ∈ (set_classpath_source es p).2, isCpRepairAct a = true := by
  intro a ha
  simp only [set_classpath_source] at ha
  split at ha
  · simp at ha; subst ha; rfl
  · simp [add_classpath_source] at ha; subst ha; rfl

theorem inject_classpath_file_acts {sd : List String} :
    ∀ a ∈ (inject_classpath_file sd).2, isCpRepairAct a = true := by
  intro a ha
  simp only [inject_classpath_file] at ha
  split at ha
  · simp only [List.mem_cons] at ha
    rcases ha with ha | ha
    · subst ha; rfl
    · exact set_classpath_source_acts a ha
  · simp at ha; subst ha; rfl

theorem checkGo_acts :
    ∀ (folders : List (List String)) (fs : FS) (es : List CPEntry)
      (srcs : List (List String)) (acts : List Act) (fs' : FS)
      (es' : List CPEntry) (acts' : List Act),
      checkGo folders fs es srcs acts = some (fs', es', acts') →
      (∀ a ∈ acts, isCpRepairAct a = true) →
      ∀ a ∈ acts', isCpRepairAct a = true := by
  intro folders
  induction folders with
  | nil =>
    intro fs es srcs acts fs' es' acts' h hs
    simp only [checkGo, Option.some.injEq] at h
    obtain ⟨-, -, rfl⟩ := h
    exact hs
  | cons d rest ih =>
    intro fs es srcs acts fs' es' acts' h hs
    rw [checkGo] at h
    split at h
    · exact ih _ _ _ _ _ _ _ h hs
    · split at h
      · split at h
        · exact absurd h (by simp)
        · next fs1 a1 hmn =>
          refine ih _ _ _ _ _ _ _ h ?_
          intro a ha
          simp only [List.mem_append] at ha
          rcases ha with ha | ha
          · exact hs a ha
          · exact move_naked_acts hmn a ha
      · refine ih _ _ _ _ _ _ _ h ?_
        intro a ha
        simp only [List.mem_append] at ha
        rcases ha with ha | ha
        · exact hs a ha
        · simp at ha; subst ha; rfl

theorem check_classpath_sources_acts {jerr : Bool} {fs : FS}
    {es : List CPEntry} {fs' : FS} {es' : List CPEntry} {acts : List Act}
    (h : check_classpath_sources jerr fs es = some (fs', es', acts)) :
    ∀ a ∈ acts, isCpRepairAct a = true := by
  simp only [check_classpath_sources] at h
  split at h
  · exact absurd h (by simp)
  · split at h
    · simp only [Option.some.injEq] at h
      obtain ⟨-, -, rfl⟩ := h
      simp
    · split at h
      · simp only [Option.some.injEq] at h
        obtain ⟨-, -, rfl⟩ := h
        simp
      · exact checkGo_acts _ _ _ _ _ _ _ _ h (by simp)

theorem phaseCases_acts {fl : Flags} {s s2 : St} {a2 : List Act}
    (h : phaseCases fl s = some (s2, a2)) :
    ∀ a ∈ a2, isCpRepairAct a = true := by
  rw [phaseCases] at h
  split at h
  · simp only [Option.some.injEq, Prod.mk.injEq] at h
    obtain ⟨-, rfl⟩ := h
    simp
  · split at h
    · split at h
      · split at h
        · simp only [Option.some.injEq, Prod.mk.injEq] at h
          obtain ⟨-, rfl⟩ := h
          exact inject_classpath_file_acts
        · split at h
          · simp at h
          · simp only [Option.some.injEq, Prod.mk.injEq] at h
            obtain ⟨-, rfl⟩ := h
            exact inject_classpath_file_acts
          · split at h
            · simp at h
            · split at h
              · simp only [Option.some.injEq, Prod.mk.injEq] at h
                obtain ⟨-, rfl⟩ := h
                exact set_classpath_source_acts
              · simp only [Option.some.injEq, Prod.mk.injEq] at h
                obtain ⟨-, rfl⟩ := h
                simp
      · split at h
        · split at h
          · simp only [Option.some.injEq, Prod.mk.injEq] at h
            obtain ⟨-, rfl⟩ := h
            exact inject_classpath_file_acts
          · split at h
            · simp at h
            · simp only [Option.some.injEq, Prod.mk.injEq] at h
              obtain ⟨-, rfl⟩ := h
              exact inject_classpath_file_acts
            · simp only [Option.some.injEq, Prod.mk.injEq] at h
              obtain ⟨-, rfl⟩ := h
              simp
        · split at h
          · split at h
            · simp at h
            · next fs2 acr hcr =>
              simp only [Option.some.injEq, Prod.mk.injEq] at h
              obtain ⟨-, rfl⟩ := h
              intro a ha
              rcases List.mem_append.mp ha with ha | ha
              · exact inject_classpath_file_acts a ha
              · exact create_src_dir_acts hcr a ha
          · split at h
            · simp at h
            · split at h
              · simp at h
              · next fs2 acr hcr =>
                simp only [Option.some.injEq, Prod.mk.injEq] at h
                obtain ⟨-, rfl⟩ := h
                intro a ha
                rcases List.mem_append.mp ha with ha | ha
                · exact inject_classpath_file_acts a ha
                · exact create_src_dir_acts hcr a ha
            · split at h
              · simp at h
              · split at h
                · split at h
                  · simp at h
                  · next fs2 acr hcr =>
                    simp only [Option.some.injEq, Prod.mk.injEq] at h
                    obtain ⟨-, rfl⟩ := h
                    exact create_src_dir_acts hcr
                · simp only [Option.some.injEq, Prod.mk.injEq] at h
                  obtain ⟨-, rfl⟩ := h
                  simp
    · split at h
      · simp only [Option.some.injEq, Prod.mk.injEq] at h
        obtain ⟨-, rfl⟩ := h
        exact inject_classpath_file_acts
      · split at h
        · simp only [Option.some.injEq, Prod.mk.injEq] at h
          obtain ⟨-, rfl⟩ := h
          exact inject_classpath_file_acts
        · split at h
          · simp at h
          · next fs2 acr hcr =>
            simp only [Option.some.injEq, Prod.mk.injEq] at h
            obtain ⟨-, rfl⟩ := h
            intro a ha
            rcases List.mem_append.mp ha with ha | ha
            · exact inject_classpath_file_acts a ha
            · exact create_src_dir_acts hcr a ha

theorem phaseCheck_acts {fl : Flags} {s s2 : St} {a2 : List Act}
    (h : phaseCheck fl s = some (s2, a2)) :
    ∀ a ∈ a2, isCpRepairAct a = true := by
  rw [phaseCheck] at h
  split at h
  · simp only [Option.some.injEq, Prod.mk.injEq] at h
    obtain ⟨-, rfl⟩ := h
    simp
  · split at h
    · split at h
      · simp at h
      · next fs2 es2 acr hcr =>
        simp only [Option.some.injEq, Prod.mk.injEq] at h
        obtain ⟨-, rfl⟩ := h
        exact check_classpath_sources_acts hcr
    · split at h
      · simp only [Option.some.injEq, Prod.mk.injEq] at h
        obtain ⟨-, rfl⟩ := h
        simp
      · simp at h
    · simp at h

theorem phaseProject_acts {fl : Flags} {s : St} :
    ∀ a ∈ (phaseProject fl s).2, a = Act.injProj := by
  intro a ha
  rw [phaseProject] at ha
  split at ha
  · simp at ha
  · split at ha
    · split at ha
      · simp at ha
      · simp at ha; exact ha
    · simp at ha; exact ha

theorem phaseDelete_acts {s : St} :
    ∀ a ∈ (phaseDelete s).2, ∃ p, a = Act.delFile p := by
  intro a ha
  simp only [phaseDelete, delete_module_info_java] at ha
  split at ha
  · simp at ha; exact ⟨_, ha⟩
  · simp at ha

theorem phaseRename_acts {nm : String} {s s2 : St} {a2 : List Act}
    (h : phaseRename nm s = some (s2, a2)) :
    ∀ a ∈ a2, a = Act.renameW := by
  simp only [phaseRename, rename_project] at h
  split at h
  · simp at h
  · next p2 a3 heq =>
    simp only [Option.some.injEq, Prod.mk.injEq] at h
    obtain ⟨-, rfl⟩ := h
    split at heq
    · simp at heq
    · simp only [Option.some.injEq, Prod.mk.injEq] at heq
      obtain ⟨-, rfl⟩ := heq
      simp
    · split at heq
      · simp at heq
      · simp only [Option.some.injEq, Prod.mk.injEq] at heq
        obtain ⟨-, rfl⟩ := heq
        simp

theorem phaseCases_cErr {fl : Flags} (hc : fl.cErr = true) (s : St) :
    phaseCases fl s = some (s, []) := by
  rw [phaseCases, if_pos hc]

theorem phaseCheck_cErr {fl : Flags} (hc : fl.cErr = true) (s : St) :
    phaseCheck fl s = some (s, []) := by
  rw [phaseCheck, if_pos hc]

theorem phaseProject_pErr {fl : Flags} (hp : fl.pErr = true) (s : St) :
    phaseProject fl s = (s, []) := by
  rw [phaseProject, if_pos hp]

theorem phaseCases_acts2 {fl : Flags} {s : St} {r : St × List Act}
    (h : phaseCases fl s = some r) : ∀ a ∈ r.2, isCpRepairAct a = true := by
  obtain ⟨s2, a2⟩ := r
  exact phaseCases_acts h

theorem phaseCheck_acts2 {fl : Flags} {s : St} {r : St × List Act}
    (h : phaseCheck fl s = some r) : ∀ a ∈ r.2, isCpRepairAct a = true := by
  obtain ⟨s2, a2⟩ := r
  exact phaseCheck_acts h

theorem phaseRename_acts2 {nm : String} {s : St} {r : St × List Act}
    (h : phaseRename nm s = some r) : ∀ a ∈ r.2, a = Act.renameW := by
  obtain ⟨s2, a2⟩ := r
  exact phaseRename_acts h

/-- C3 (confirmed): whenever the classpath-descriptor search returns
`SearchError`, the run performs no classpath repair action of any kind — no
injection, no source-path edit, no source-directory creation, no relocation
move — because the decision table's absorbing seventh case does nothing and
the coverage check is skipped; and a `SearchError` on the project-descriptor
search suppresses project-descriptor injection. -/
theorem C3_theorem (s₀ s₁ : St) (nm₀ nm₁ : String) (fl₀ fl₁ : Flags)
    (hc : fl₀.cErr = true) (hp : fl₁.pErr = true) :
    (∀ a ∈ (runEngine fl₀ nm₀ s₀).2, isCpRepairAct a = false) ∧
      Act.injProj ∉ (runEngine fl₁ nm₁ s₁).2 := by
  constructor
  · intro a ha
    simp only [runEngine, phaseCases_cErr hc, phaseCheck_cErr hc] at ha
    split at ha
    · simp only [List.append_nil, List.mem_append] at ha
      rcases ha with ha | ha
      · have := phaseProject_acts a ha; subst this; rfl
      · obtain ⟨p, hp2⟩ := phaseDelete_acts a ha; subst hp2; rfl
    · next r5 heq =>
      simp only [List.append_nil, List.mem_append] at ha
      rcases ha with (ha | ha) | ha
      · have := phaseProject_acts a ha; subst this; rfl
      · obtain ⟨p, hp2⟩ := phaseDelete_acts a ha; subst hp2; rfl
      · have := phaseRename_acts2 heq a ha; subst this; rfl
  · intro ha
    simp only [runEngine, phaseProject_pErr hp] at ha
    split at ha
    · simp at ha
    · next r2 heq2 =>
      split at ha
      · simp only [List.nil_append, List.mem_append] at ha
        exact isCpRepairAct_ne_injProj (phaseCases_acts2 heq2 _ ha) rfl
      · next r3 heq3 =>
        split at ha
        · simp only [List.nil_append, List.mem_append] at ha
          rcases ha with (ha | ha) | ha
          · exact isCpRepairAct_ne_injProj (phaseCases_acts2 heq2 _ ha) rfl
          · exact isCpRepairAct_ne_injProj (phaseCheck_acts2 heq3 _ ha) rfl
          · obtain ⟨p, hp2⟩ := phaseDelete_acts _ ha; simp at hp2
        · next r5 heq5 =>
          simp only [List.nil_append, List.mem_append] at ha
          rcases ha with ((ha | ha) | ha) | ha
          · exact isCpRepairAct_ne_injProj (phaseCases_acts2 heq2 _ ha) rfl
          · exact isCpRepairAct_ne_injProj (phaseCheck_acts2 heq3 _ ha) rfl
          · obtain ⟨p, hp2⟩ := phaseDelete_acts _ ha; simp at hp2
          · have := phaseRename_acts2 heq5 _ ha; simp at this

/-- C3 witness: both suppression behaviours at a concrete tree — a classpath
search error on a tree whose classpath is absent, and a project search error
on a tree whose project descriptor is absent. -/
theorem C3_witness :
    (∀ a ∈ (runEngine ⟨false, true, false, false⟩ "w"
        ⟨⟨[⟨["A.java"], []⟩], []⟩, none, some (some ⟨some "x", true, true⟩)⟩).2,
        isCpRepairAct a = false) ∧
      Act.injProj ∉ (runEngine ⟨true, false, false, false⟩ "w"
        ⟨⟨[⟨["A.java"], []⟩], []⟩, none, none⟩).2 := by
  exact C3_theorem _ _ "w" "w" _ _ rfl rfl

theorem moveIntoD_dirs (fs : FS) (p td : List String) :
    (moveIntoD fs p td).1.dirs = fs.dirs := by
  simp only [moveIntoD, moveFile]
  split
  · split
    · rfl
    · rfl
  · rfl

theorem jfile_eta {e : JFile} {p : List String} (hp : e.path = p) :
    { e with path := p } = e := by
  cases e
  simp_all

theorem moveIntoD_mem_keep {fs : FS} {p td : List String} {e : JFile}
    (he : e ∈ fs.files) (hp0 : p ≠ [])
    (hlast : e.path.getLast? ≠ p.getLast?) :
    e ∈ (moveIntoD fs p td).1.files := by
  have hnp : e.path ≠ p := fun h => hlast (by rw [h])
  obtain ⟨x, hx⟩ := Option.isSome_iff_exists.mp (List.getLast?_isSome.mpr hp0)
  have hnt : e.path ≠ td ++ [p.getLast?.getD ""] := by
    intro hcon
    apply hlast
    rw [hcon, List.getLast?_concat, hx]
    simp [hx]
  simp only [moveIntoD]
  split
  · split
    · exact he
    · simp only [moveFile]
      split
      · exact he
      · refine List.mem_map.mpr ⟨e, List.mem_filter.mpr ⟨he, ?_⟩, by simp [hnp]⟩
        simp [hnt]
  · exact he

theorem moveIntoD_moved {fs : FS} {p : List String} (td : List String)
    {e : JFile} (he : e ∈ fs.files) (hp : e.path = p)
    (hex : td = [] ∨ td ∈ fs.dirs) :
    { e with path := td ++ [p.getLast?.getD ""] } ∈ (moveIntoD fs p td).1.files := by
  simp only [moveIntoD]
  rw [if_pos hex]
  split
  · next ht =>
    rw [ht, jfile_eta hp]
    exact he
  · next ht =>
    simp only [moveFile]
    rw [if_neg ht]
    refine List.mem_map.mpr ⟨e, List.mem_filter.mpr ⟨he, ?_⟩, by simp [hp]⟩
    simp only [hp, decide_eq_true_eq]
    intro hh
    exact ht hh.symm

theorem getAllGo_isSome {es : List CPEntry} (hw : WfSrcB es = true) :
    ∀ acc, ∃ l, getAllGo es acc = some l := by
  induction es with
  | nil => exact fun acc => ⟨acc, rfl⟩
  | cons e rest ih =>
    intro acc
    rw [WfSrcB, List.all_cons, Bool.and_eq_true] at hw
    obtain ⟨hwe, hwr⟩ := hw
    by_cases hk : e.kind = some "src"
    · obtain ⟨p, hp⟩ : ∃ p, e.path = some p := by
        cases hpp : e.path with
        | none => rw [hk, hpp] at hwe; simp at hwe
        | some q => exact ⟨q, rfl⟩
      obtain ⟨l, hl⟩ := ih hwr (addSetR acc (pPath p))
      exact ⟨l, by rw [getAllGo, if_pos hk, hp]; exact hl⟩
    · obtain ⟨l, hl⟩ := ih hwr acc
      exact ⟨l, by rw [getAllGo, if_neg hk]; exact hl⟩

theorem relocOne_some (es : List CPEntry) (st : FS × List Act) {g : JFile}
    (hg : (get_java_file_package g).isSome = true) :
    relocOne es st g =
      some ((moveIntoD st.1 g.path (nakedDest es g)).1,
        st.2 ++ (moveIntoD st.1 g.path (nakedDest es g)).2) := by
  obtain ⟨v, hv⟩ := Option.isSome_iff_exists.mp hg
  rw [relocOne, hv]

theorem reloc_fold_preserves (es : List CPEntry) (L : List JFile) :
    ∀ (st : FS × List Act) (e : JFile),
      e ∈ st.1.files →
      (∀ g ∈ L, (get_java_file_package g).isSome = true ∧ g.path ≠ [] ∧
        g.path.getLast? ≠ e.path.getLast?) →
      ∃ st', List.foldlM (relocOne es) st L = some st' ∧
        e ∈ st'.1.files ∧ st'.1.dirs = st.1.dirs := by
  induction L with
  | nil => exact fun st e he _ => ⟨st, by simp [List.foldlM_nil], he, rfl⟩
  | cons g gs ih =>
    intro st e he hL
    obtain ⟨hg1, hg2, hg3⟩ := hL g (List.mem_cons_self g gs)
    have hstep := relocOne_some es st hg1
    have he1 : e ∈ (moveIntoD st.1 g.path (nakedDest es g)).1.files :=
      moveIntoD_mem_keep he hg2 (fun hcon => hg3 hcon.symm)
    obtain ⟨st', hfold, hmem, hdirs⟩ :=
      ih ((moveIntoD st.1 g.path (nakedDest es g)).1,
          st.2 ++ (moveIntoD st.1 g.path (nakedDest es g)).2) e he1
        (fun g' hg' => hL g' (List.mem_cons_of_mem g hg'))
    refine ⟨st', ?_, hmem, ?_⟩
    · rw [List.foldlM_cons, hstep]
      simpa using hfold
    · rw [hdirs]
      exact moveIntoD_dirs st.1 g.path (nakedDest es g)

theorem moveNaked_relocates (fs : FS) (es : List CPEntry) (f : JFile) (n : String)
    (hw : WfSrcB es = true)
    (hwf : ∀ g ∈ fs.files, g.path.length = 1 → (get_java_file_package g).isSome = true)
    (hnd : (fs.files.map (fun g => g.path)).Nodup)
    (hf : f ∈ fs.files) (hp : f.path = [n]) :
    ∃ fs' acts, move_naked_java_files fs es = some (fs', acts) ∧
      fs'.dirs = fs.dirs ∧
      ((nakedDest es f = [] ∨ nakedDest es f ∈ fs.dirs) →
        { f with path := nakedDest es f ++ [n] } ∈ fs'.files) ∧
      (¬(nakedDest es f = [] ∨ nakedDest es f ∈ fs.dirs) → f ∈ fs'.files) := by
  obtain ⟨srcs, hsrcs⟩ := getAllGo_isSome hw []
  have hσ : getSrcGo es = some (specPrimarySrc es) := getSrcGo_spec es hw
  have hfn : f ∈ fs.files.filter (fun g => decide (g.path.length = 1)) :=
    List.mem_filter.mpr ⟨hf, by simp [hp]⟩
  obtain ⟨L1, L2, hsplit⟩ := List.append_of_mem hfn
  have hnk_sub : ∀ g ∈ fs.files.filter (fun g => decide (g.path.length = 1)),
      g ∈ fs.files ∧ g.path.length = 1 := by
    intro g hg
    obtain ⟨h1, h2⟩ := List.mem_filter.mp hg
    exact ⟨h1, by simpa using h2⟩
  have hnd2 : ((fs.files.filter (fun g => decide (g.path.length = 1))).map
      (fun g => g.path)).Nodup :=
    List.Nodup.sublist (List.Sublist.map _ (List.filter_sublist _)) hnd
  rw [hsplit, List.map_append, List.map_cons] at hnd2
  obtain ⟨hn1, hn2, hdisj⟩ := List.nodup_append.mp hnd2
  have hfp_notL1 : f.path ∉ L1.map (fun g => g.path) :=
    fun hmem => hdisj hmem (List.mem_cons_self _ _)
  have hfp_notL2 : f.path ∉ L2.map (fun g => g.path) :=
    (List.nodup_cons.mp hn2).1
  have hL1cond : ∀ g ∈ L1, (get_java_file_package g).isSome = true ∧
      g.path ≠ [] ∧ g.path.getLast? ≠ f.path.getLast? := by
    intro g hg
    have hgnk : g ∈ fs.files.filter (fun g => decide (g.path.length = 1)) := by
      rw [hsplit]; exact List.mem_append_left _ hg
    obtain ⟨hgf, hglen⟩ := hnk_sub g hgnk
    obtain ⟨m, hm⟩ := List.length_eq_one.mp hglen
    have hne : g.path ≠ f.path := by
      intro hcon
      exact hfp_notL1 (hcon ▸ List.mem_map_of_mem _ hg)
    refine ⟨hwf g hgf hglen, by simp [hm], ?_⟩
    rw [hm, hp]
    simp only [List.getLast?_singleton, ne_eq, Option.some.injEq]
    intro hcon
    exact hne (by rw [hm, hp, hcon])
  have hL2cond : ∀ g ∈ L2, (get_java_file_package g).isSome = true ∧
      g.path ≠ [] ∧ g.path.getLast? ≠ some n := by
    intro g hg
    have hgnk : g ∈ fs.files.filter (fun g => decide (g.path.length = 1)) := by
      rw [hsplit]; exact List.mem_append_right _ (List.mem_cons_of_mem _ hg)
    obtain ⟨hgf, hglen⟩ := hnk_sub g hgnk
    obtain ⟨m, hm⟩ := List.length_eq_one.mp hglen
    have hne : g.path ≠ f.path := by
      intro hcon
      exact hfp_notL2 (hcon ▸ List.mem_map_of_mem _ hg)
    refine ⟨hwf g hgf hglen, by simp [hm], ?_⟩
    rw [hm]
    simp only [List.getLast?_singleton, ne_eq, Option.some.injEq]
    intro hcon
    exact hne (by rw [hm, hp, hcon])
  obtain ⟨st1, hfold1, hf1, hd1⟩ :=
    reloc_fold_preserves es L1 (fs, []) f hf hL1cond
  have hfpkg : (get_java_file_package f).isSome = true := hwf f hf (by simp [hp])
  have hstep := relocOne_some es st1 hfpkg
  have hnlast : f.path.getLast?.getD "" = n := by rw [hp]; rfl
  by_cases hcase : nakedDest es f = [] ∨ nakedDest es f ∈ fs.dirs
  · have hmem2 : { f with path := nakedDest es f ++ [n] } ∈
        (moveIntoD st1.1 f.path (nakedDest es f)).1.files := by
      have := moveIntoD_moved (nakedDest es f) hf1 rfl (by rw [hd1]; exact hcase)
      rwa [hnlast] at this
    obtain ⟨st3, hfold3, hf3, hd3⟩ :=
      reloc_fold_preserves es L2
        ((moveIntoD st1.1 f.path (nakedDest es f)).1,
          st1.2 ++ (moveIntoD st1.1 f.path (nakedDest es f)).2)
        ({ f with path := nakedDest es f ++ [n] }) hmem2
        (by
          intro g hg
          obtain ⟨h1, h2, h3⟩ := hL2cond g hg
          refine ⟨h1, h2, ?_⟩
          simpa [List.getLast?_concat] using h3)
    refine ⟨st3.1, st3.2, ?_, ?_, fun _ => hf3, fun hno => absurd hcase hno⟩
    · rw [move_naked_java_files, hsrcs, hσ]
      simp only []
      rw [hsplit, List.foldlM_append, hfold1]
      simp only [Option.bind_eq_bind, Option.some_bind]
      rw [List.foldlM_cons, hstep]
      simp only [Option.bind_eq_bind, Option.some_bind]
      rw [hfold3]
    · rw [hd3, moveIntoD_dirs, hd1]
  · have hiff : ¬(nakedDest es f = [] ∨ nakedDest es f ∈ st1.1.dirs) := by
      rw [hd1]; exact hcase
    have hmv : (moveIntoD st1.1 f.path (nakedDest es f)).1 = st1.1 := by
      simp only [moveIntoD]
      rw [if_neg hiff]
    obtain ⟨st3, hfold3, hf3, hd3⟩ :=
      reloc_fold_preserves es L2
        ((moveIntoD st1.1 f.path (nakedDest es f)).1,
          st1.2 ++ (moveIntoD st1.1 f.path (nakedDest es f)).2)
        f (by rw [hmv]; exact hf1)
        (by
          intro g hg
          obtain ⟨h1, h2, h3⟩ := hL2cond g hg
          exact ⟨h1, h2, by rw [hp]; simpa using h3⟩)
    refine ⟨st3.1, st3.2, ?_, ?_, fun hyes => absurd hyes hcase, fun _ => hf3⟩
    · rw [move_naked_java_files, hsrcs, hσ]
      simp only []
      rw [hsplit, List.foldlM_append, hfold1]
      simp only [Option.bind_eq_bind, Option.some_bind]
      rw [List.foldlM_cons, hstep]
      simp only [Option.bind_eq_bind, Option.some_bind]
      rw [hfold3]
    · rw [hd3, moveIntoD_dirs, hd1]

/-- C2 (counterexample): a naked file declaring group `com.x`, with the
primary root `src` present but `src/com.x` absent.  The claim requires the
group directory to be created and the file moved into it; the relocator
creates nothing and the move fails, leaving the file at the root. -/
theorem C2_counterexample :
    ∃ fs' acts,
      move_naked_java_files ⟨[⟨["Foo.java"], ["package com.x;"]⟩], [["src"]]⟩
          [⟨some "src", some "src"⟩] = some (fs', acts) ∧
        (⟨["Foo.java"], ["package com.x;"]⟩ : JFile) ∈ fs'.files ∧
        ["src", "com.x"] ∉ fs'.dirs ∧
        (∀ f ∈ fs'.files, f.path ≠ ["src", "com.x", "Foo.java"]) := by
  refine ⟨_, _, rfl, ?_, ?_, ?_⟩ <;> decide

/-- C2 (amended): every naked source file is routed to the test root when it
is marked test and a test-source entry exists, else to the primary root, with
an inferred group name appended as a single subdirectory component when the
group is nonempty — a declaration that parses to the empty string counts as
no group, by Python truthiness (`nakedDest`); but the group directory is
never created — the file is moved exactly when the destination directory
already exists (the directory set is unchanged), and otherwise the move fails
and the file stays in place. -/
theorem C2_theorem (fs : FS) (es : List CPEntry) (f : JFile) (n : String)
    (hw : WfSrcB es = true)
    (hwf : ∀ g ∈ fs.files, g.path.length = 1 → (get_java_file_package g).isSome = true)
    (hnd : (fs.files.map (fun g => g.path)).Nodup)
    (hf : f ∈ fs.files) (hp : f.path = [n]) :
    ∃ fs' acts, move_naked_java_files fs es = some (fs', acts) ∧
      fs'.dirs = fs.dirs ∧
      ((nakedDest es f = [] ∨ nakedDest es f ∈ fs.dirs) →
        { f with path := nakedDest es f ++ [n] } ∈ fs'.files) ∧
      (¬(nakedDest es f = [] ∨ nakedDest es f ∈ fs.dirs) → f ∈ fs'.files) :=
  moveNaked_relocates fs es f n hw hwf hnd hf hp

/-- C2 witness: Scenario D routing at a concrete tree — the `@Test`-marked
naked file is relocated under the declared `tests` entry. -/
theorem C2_witness :
    ∃ fs' acts,
      move_naked_java_files ⟨[⟨["T.java"], ["@Test"]⟩], [["src"], ["tests"]]⟩
          [⟨some "src", some "src"⟩, ⟨some "src", some "tests"⟩] = some (fs', acts) ∧
        (⟨["tests", "T.java"], ["@Test"]⟩ : JFile) ∈ fs'.files := by
  obtain ⟨fs', acts, h1, h2, h3, h4⟩ :=
    C2_theorem ⟨[⟨["T.java"], ["@Test"]⟩], [["src"], ["tests"]]⟩
      [⟨some "src", some "src"⟩, ⟨some "src", some "tests"⟩]
      ⟨["T.java"], ["@Test"]⟩ "T.java"
      (by decide) (by decide) (by decide) (by decide) rfl
  refine ⟨fs', acts, h1, ?_⟩
  have hd : nakedDest [⟨some "src", some "src"⟩, ⟨some "src", some "tests"⟩]
      (⟨["T.java"], ["@Test"]⟩ : JFile) = ["tests"] := by decide
  have := h3 (by rw [hd]; decide)
  rw [hd] at this
  exact this

/-- C8 (counterexample): the classpath declares a single `src`-kind entry
`tests` — no entry containing `src`, so no primary source root exists
(`get_classpath_src` yields the root) — yet the naked `@Test`-marked file is
not left in place: it is moved under `tests`. -/
theorem C8_counterexample :
    getSrcGo [⟨some "src", some "tests"⟩] = some [] ∧
      ∃ fs' acts,
        move_naked_java_files ⟨[⟨["T.java"], ["@Test"]⟩], [["tests"]]⟩
            [⟨some "src", some "tests"⟩] = some (fs', acts) ∧
          (⟨["tests", "T.java"], ["@Test"]⟩ : JFile) ∈ fs'.files ∧
          (∀ f ∈ fs'.files, f.path ≠ ["T.java"]) := by
  refine ⟨by decide, _, _, rfl, ?_, ?_⟩ <;> decide

/-- C8 (amended): when no primary source root exists (the primary lookup
yields the root path), a naked file is left in place only when it is not
routed to a test entry and, if it has a nonempty group, the group directory
does not already exist at the root: a group-less file (no declaration, or one
parsing to the empty string — Python truthiness) not going to a test entry
keeps its place; a test-marked file is still moved under an existing test
entry; and a nonempty-grouped file is moved into an existing root-level
directory named by its group, else left in place.  No directory is ever
created. -/
theorem C8_theorem (fs : FS) (es : List CPEntry) (f : JFile) (n : String)
    (hw : WfSrcB es = true)
    (hwf : ∀ g ∈ fs.files, g.path.length = 1 → (get_java_file_package g).isSome = true)
    (hnd : (fs.files.map (fun g => g.path)).Nodup)
    (hf : f ∈ fs.files) (hp : f.path = [n])
    (hσ : getSrcGo es = some []) :
    ∃ fs' acts, move_naked_java_files fs es = some (fs', acts) ∧
      fs'.dirs = fs.dirs ∧
      ((is_junit_java_file f = false ∨ pickTestSrc ((getAllGo es []).getD []) = none) →
        (get_java_file_package f = some none ∨
          get_java_file_package f = some (some "")) → f ∈ fs'.files) ∧
      (∀ t, pickTestSrc ((getAllGo es []).getD []) = some t →
        is_junit_java_file f = true → get_java_file_package f = some none →
        t ∈ fs.dirs → { f with path := t ++ [n] } ∈ fs'.files) ∧
      (∀ pkg, get_java_file_package f = some (some pkg) → pkg ≠ "" →
        (is_junit_java_file f = false ∨ pickTestSrc ((getAllGo es []).getD []) = none) →
        (([pkg] ∈ fs.dirs → { f with path := [pkg, n] } ∈ fs'.files) ∧
          ([pkg] ∉ fs.dirs → f ∈ fs'.files))) := by
  obtain ⟨fs', acts, h1, h2, h3, h4⟩ := moveNaked_relocates fs es f n hw hwf hnd hf hp
  refine ⟨fs', acts, h1, h2, ?_, ?_, ?_⟩
  · intro hbase hpkg
    have hdest : nakedDest es f = [] := by
      rcases hpkg with hpkg | hpkg <;> rcases hbase with hj | hpick
      · simp only [nakedDest, hσ, hpkg, hj]
        cases hcp : pickTestSrc ((getAllGo es []).getD []) <;> simp [hcp]
      · simp [nakedDest, hσ, hpkg, hpick]
      · simp only [nakedDest, hσ, hpkg, hj]
        cases hcp : pickTestSrc ((getAllGo es []).getD []) <;> simp [hcp]
      · simp [nakedDest, hσ, hpkg, hpick]
    have := h3 (Or.inl hdest)
    rw [hdest] at this
    rwa [List.nil_append, jfile_eta hp] at this
  · intro t hpick hjunit hpkg ht
    have hdest : nakedDest es f = t := by
      simp [nakedDest, hσ, hpick, hjunit, hpkg]
    have := h3 (Or.inr (hdest ▸ ht))
    rwa [hdest] at this
  · intro pkg hpkg hne hbase
    have hdest : nakedDest es f = [pkg] := by
      rcases hbase with hj | hpick
      · simp only [nakedDest, hσ, hpkg, hj]
        cases hcp : pickTestSrc ((getAllGo es []).getD []) <;> simp [hcp, hne]
      · simp [nakedDest, hσ, hpkg, hpick, hne]
    constructor
    · intro hin
      have := h3 (Or.inr (hdest ▸ hin))
      rwa [hdest] at this
    · intro hout
      refine h4 ?_
      rw [hdest]
      rintro (hcon | hcon)
      · simp at hcon
      · exact hout hcon

/-- C8 witness: with a single `src`-kind entry `x` (no primary root, no test
entry), a naked group-less file keeps its place at the project root. -/
theorem C8_witness :
    ∃ fs' acts,
      move_naked_java_files ⟨[⟨["A.java"], ["// c"]⟩], []⟩ [⟨some "src", some "x"⟩] =
          some (fs', acts) ∧
        (⟨["A.java"], ["// c"]⟩ : JFile) ∈ fs'.files := by
  obtain ⟨fs', acts, h1, h2, h3, h4, h5⟩ :=
    C8_theorem ⟨[⟨["A.java"], ["// c"]⟩], []⟩ [⟨some "src", some "x"⟩]
      ⟨["A.java"], ["// c"]⟩ "A.java"
      (by decide) (by decide) (by decide) (by decide) rfl (by decide)
  exact ⟨fs', acts, h1, h3 (Or.inl (by decide)) (Or.inl (by decide))⟩

theorem checkGo_covered_noop (folders : List (List String)) (fs : FS)
    (es : List CPEntry) (srcs : List (List String)) (acts : List Act)
    (hcov : ∀ d ∈ folders, coveredB d srcs = true) :
    checkGo folders fs es srcs acts = some (fs, es, acts) := by
  induction folders with
  | nil => rfl
  | cons d rest ih =>
    rw [checkGo, if_pos (hcov d (List.mem_cons_self d rest))]
    exact ih (fun d' hd' => hcov d' (List.mem_cons_of_mem d hd'))

/-- C9 (amended, positive half): on a tree satisfying `ReconInv` — which the
claim's "second run" presupposes — an error-free run performs no file moves
and no writes other than the unconditional display-name rewrite: its only
action is `renameW`, and files, directories and classpath are unchanged. -/
theorem C9_theorem (s : St) (nm : String) (h : ReconInv s) :
    ∃ s2, runEngine ⟨false, false, false, false⟩ nm s = (some s2, [Act.renameW]) ∧
      s2.fs = s.fs ∧ s2.cp = s.cp := by
  obtain ⟨⟨pd, hpd, hbc, hnat, hname⟩,
    ⟨es, srcs, hcp, hval, hall, hcov, hsrc⟩, hmod⟩ := h
  have h1 : phaseProject ⟨false, false, false, false⟩ s = (s, []) := by
    rw [phaseProject]
    simp [hpd, is_valid_project_file, hbc, hnat]
  have h2 : phaseCases ⟨false, false, false, false⟩ s = some (s, []) := by
    rw [phaseCases]
    cases hsd : find_src_dir s.fs.dirs with
    | some sd =>
      rw [hsd] at hsrc
      simp [hcp, hsd, hval, hsrc]
    | none =>
      rw [hsd] at hsrc
      simp [hcp, hsd, hval, hsrc, pstr]
  have h3 : phaseCheck ⟨false, false, false, false⟩ s = some (s, []) := by
    rw [phaseCheck]
    simp only [hcp]
    rw [check_classpath_sources, hall]
    by_cases hfold : find_java_file_folders s.fs.files = []
    · simp [hfold, ← hcp]
    · simp [hfold, checkGo_covered_noop _ _ _ _ _ hcov, ← hcp]
  have h4 : phaseDelete s = (s, []) := by
    rw [phaseDelete, delete_module_info_java]
    have hfind : s.fs.files.find?
        (fun f => decide (f.path.getLast? = some "module-info.java")) = none := by
      rw [List.find?_eq_none]
      intro f hf
      simp [hmod f hf]
    rw [hfind]
  obtain ⟨nm0, hnm0⟩ := Option.isSome_iff_exists.mp hname
  have h5 : phaseRename nm s =
      some ({ s with proj := some (some { pd with name := some nm }) },
        [Act.renameW]) := by
    rw [phaseRename, hpd]
    simp [rename_project, hnm0]
  refine ⟨{ s with proj := some (some { pd with name := some nm }) }, ?_, rfl, rfl⟩
  rw [runEngine]
  simp only [h1, h2, h3, h4, h5, List.nil_append]

/-- C9 (counterexample): running the engine twice on `c9tree` is not
write-free or move-free on the second run.  The first run adds a classpath
entry for `tester` but leaves the naked test file in place (no test entry was
visible when it ran); the second run then relocates `T.java` under `tester`
— a file move — and also rewrites the project descriptor's name. -/
theorem C9_counterexample :
    (runEngine ⟨false, false, false, false⟩ "n" c9tree).1 = some c9mid ∧
      Act.move ["T.java"] ["tester", "T.java"] ∈
        (runEngine ⟨false, false, false, false⟩ "n" c9mid).2 ∧
      Act.renameW ∈ (runEngine ⟨false, false, false, false⟩ "n" c9mid).2 := by
  refine ⟨?_, ?_, ?_⟩ <;> decide

/-- C9 witness: the fixpoint theorem applied to a concrete reconciled tree. -/
theorem C9_witness :
    ∃ s2, runEngine ⟨false, false, false, false⟩ "new"
        ⟨⟨[⟨["src", "A.java"], ["// x"]⟩], [["src"]]⟩,
          some (some default_classpath_file),
          some (some ⟨some "nm", true, true⟩)⟩ = (some s2, [Act.renameW]) ∧
      s2.fs = (⟨⟨[⟨["src", "A.java"], ["// x"]⟩], [["src"]]⟩,
          some (some default_classpath_file),
          some (some ⟨some "nm", true, true⟩)⟩ : St).fs ∧
      s2.cp = (⟨⟨[⟨["src", "A.java"], ["// x"]⟩], [["src"]]⟩,
          some (some default_classpath_file),
          some (some ⟨some "nm", true, true⟩)⟩ : St).cp := by
  exact C9_theorem _ "new"
    ⟨⟨⟨some "nm", true, true⟩, rfl, rfl, rfl, rfl⟩,
      ⟨default_classpath_file, [["src"]], rfl, by decide, by decide, by decide,
        (show getSrcGo default_classpath_file = some ["src"] by decide)⟩,
      by decide⟩

theorem declaredSrc_cons {e : CPEntry} {es : List CPEntry} {p : List String} :
    declaredSrc (e :: es) p ↔
      (e.kind = some "src" ∧ ∃ str, e.path = some str ∧ pPath str = p) ∨
        declaredSrc es p := by
  constructor
  · rintro ⟨x, hx, hk, hs⟩
    rcases List.mem_cons.mp hx with rfl | hx
    · exact Or.inl ⟨hk, hs⟩
    · exact Or.inr ⟨x, hx, hk, hs⟩
  · rintro (⟨hk, hs⟩ | ⟨x, hx, hk, hs⟩)
    · exact ⟨e, List.mem_cons_self e es, hk, hs⟩
    · exact ⟨x, List.mem_cons_of_mem e hx, hk, hs⟩

theorem declaredSrc_append {es : List CPEntry} {e : CPEntry} {p : List String}
    (h : declaredSrc es p) : declaredSrc (es ++ [e]) p := by
  obtain ⟨x, hx, hk, hs⟩ := h
  exact ⟨x, List.mem_append_left _ hx, hk, hs⟩

theorem getAllGo_mem {es : List CPEntry} :
    ∀ {acc l}, getAllGo es acc = some l →
      ∀ p, p ∈ l ↔ p ∈ acc ∨ declaredSrc es p := by
  induction es with
  | nil =>
    intro acc l h p
    simp only [getAllGo, Option.some.injEq] at h
    subst h
    simp [declaredSrc]
  | cons e rest ih =>
    intro acc l h p
    rw [getAllGo] at h
    split at h
    · next hk =>
      split at h
      · simp at h
      · next q hq =>
        rw [ih h p, mem_addSetR, declaredSrc_cons]
        constructor
        · rintro ((hp | rfl) | hd)
          · exact Or.inl hp
          · exact Or.inr (Or.inl ⟨hk, q, hq, rfl⟩)
          · exact Or.inr (Or.inr hd)
        · rintro (hp | (⟨-, str, hstr, hpp⟩ | hd))
          · exact Or.inl (Or.inl hp)
          · rw [hq] at hstr
            cases hstr
            exact Or.inl (Or.inr hpp.symm)
          · exact Or.inr hd
    · next hk =>
      rw [ih h p, declaredSrc_cons]
      constructor
      · rintro (hp | hd)
        · exact Or.inl hp
        · exact Or.inr (Or.inr hd)
      · rintro (hp | (⟨hke, -⟩ | hd))
        · exact Or.inl hp
        · exact absurd hke hk
        · exact Or.inr hd

theorem getSrcGo_declared {es : List CPEntry} {g : List String}
    (h : getSrcGo es = some g) (hg : g ≠ []) : declaredSrc es g := by
  induction es with
  | nil =>
    simp only [getSrcGo, Option.some.injEq] at h
    exact absurd h.symm hg
  | cons e rest ih =>
    rw [getSrcGo] at h
    split at h
    · next hk =>
      split at h
      · simp at h
      · next q hq =>
        split at h
        · simp only [Option.some.injEq] at h
          exact declaredSrc_cons.mpr (Or.inl ⟨hk, q, hq, h⟩)
        · exact declaredSrc_cons.mpr (Or.inr (ih h))
    · exact declaredSrc_cons.mpr (Or.inr (ih h))

theorem pPath_single {c : String} (h : WfCompB c = true) : pPath c = [c] := by
  rw [WfCompB, Bool.and_eq_true, Bool.and_eq_true] at h
  obtain ⟨⟨h1, h2⟩, h3⟩ := h
  simp only [Bool.not_eq_true', decide_eq_false_iff_not] at h1 h2
  rw [pPath, decide_eq_true_eq.mp h3]
  simp [h1, h2]

theorem coveredB_iff {d : List String} {srcs : List (List String)} :
    coveredB d srcs = true ↔
      d ∈ srcs ∨ pparent d ∈ srcs ∨
        (d ≠ [] ∧ ∃ s ∈ srcs, d ≠ s ∧ d <+: s) := by
  rw [coveredB]
  simp only [Bool.or_eq_true, Bool.and_eq_true, decide_eq_true_eq,
    List.any_eq_true, List.isPrefixOf_iff_prefix]
  tauto

theorem coveredB_mono {d : List String} {srcs srcs' : List (List String)}
    (hsub : ∀ p ∈ srcs, p ∈ srcs') (h : coveredB d srcs = true) :
    coveredB d srcs' = true := by
  rw [coveredB_iff] at h ⊢
  rcases h with h | h | ⟨h1, s, hs, h2, h3⟩
  · exact Or.inl (hsub _ h)
  · exact Or.inr (Or.inl (hsub _ h))
  · exact Or.inr (Or.inr ⟨h1, s, hsub _ hs, h2, h3⟩)

theorem coveredB_topCovered {c : String} {srcs : List (List String)}
    {es : List CPEntry} (hmem : ∀ p ∈ srcs, declaredSrc es p)
    (h : coveredB [c] srcs = true) : topCovered c es := by
  rw [coveredB_iff] at h
  rcases h with h | h | ⟨-, s, hs, h2, h3⟩
  · exact Or.inl (hmem _ h)
  · exact Or.inr (Or.inl (hmem _ h))
  · exact Or.inr (Or.inr ⟨s, hmem _ hs, h3, h2⟩)

theorem topCovered_mono {c : String} {es es' : List CPEntry}
    (hsub : ∀ p, declaredSrc es p → declaredSrc es' p)
    (h : topCovered c es) : topCovered c es' := by
  rcases h with h | h | ⟨s, hs, h2, h3⟩
  · exact Or.inl (hsub _ h)
  · exact Or.inr (Or.inl (hsub _ h))
  · exact Or.inr (Or.inr ⟨s, hsub _ hs, h2, h3⟩)

theorem checkGo_cover :
    ∀ (folders : List (List String)) (fs : FS) (es : List CPEntry)
      (srcs : List (List String)) (acts : List Act) (fs' : FS)
      (es' : List CPEntry) (acts' : List Act),
      checkGo folders fs es srcs acts = some (fs', es', acts') →
      (∀ d ∈ folders, d ≠ []) →
      (∀ p ∈ srcs, declaredSrc es p) →
      (∀ d ∈ folders, ∃ c, d = [c] ∧
        (WfCompB c = true ∨ coveredB d srcs = true)) →
      fs' = fs ∧
        (∀ p, declaredSrc es p → declaredSrc es' p) ∧
        (∀ d ∈ folders, ∃ c, d = [c] ∧ topCovered c es') := by
  intro folders
  induction folders with
  | nil =>
    intro fs es srcs acts fs' es' acts' h _ _ _
    simp only [checkGo, Option.some.injEq] at h
    obtain ⟨rfl, rfl, -⟩ := h
    exact ⟨rfl, fun p hp => hp, by simp⟩
  | cons d rest ih =>
    intro fs es srcs acts fs' es' acts' h hroot hmem hshape
    obtain ⟨c, rfl, hcw⟩ := hshape d (List.mem_cons_self d rest)
    rw [checkGo] at h
    split at h
    · next hcov =>
      obtain ⟨hfs, hmono, hcover⟩ := ih _ _ _ _ _ _ _ h
        (fun d' hd' => hroot d' (List.mem_cons_of_mem _ hd'))
        hmem
        (fun d' hd' => hshape d' (List.mem_cons_of_mem _ hd'))
      refine ⟨hfs, hmono, ?_⟩
      intro d' hd'
      rcases List.mem_cons.mp hd' with rfl | hd'
      · exact ⟨c, rfl, coveredB_topCovered (fun p hp => hmono p (hmem p hp)) hcov⟩
      · exact hcover d' hd'
    · next hncov =>
      split at h
      · next heq => exact absurd heq (hroot _ (List.mem_cons_self _ rest))
      · next hne =>
        have hwfc : WfCompB c = true := by
          rcases hcw with hw | hcb
          · exact hw
          · exact absurd hcb hncov
        have hdecl : declaredSrc (es ++ [⟨some "src", some (pstr [c])⟩]) [c] :=
          ⟨⟨some "src", some (pstr [c])⟩, List.mem_append_right _ (by simp),
            rfl, pstr [c], rfl, by rw [pstr]; exact pPath_single hwfc⟩
        obtain ⟨hfs, hmono, hcover⟩ := ih _ _ _ _ _ _ _ h
          (fun d' hd' => hroot d' (List.mem_cons_of_mem _ hd'))
          (by
            intro p hp
            rcases mem_addSetR.mp hp with hp | rfl
            · exact declaredSrc_append (hmem p hp)
            · exact hdecl)
          (by
            intro d' hd'
            obtain ⟨c', rfl, hcw'⟩ := hshape d' (List.mem_cons_of_mem _ hd')
            refine ⟨c', rfl, ?_⟩
            rcases hcw' with hw | hcb
            · exact Or.inl hw
            · exact Or.inr (coveredB_mono (fun p hp => mem_addSetR.mpr (Or.inl hp)) hcb))
        refine ⟨hfs, fun p hp => hmono p (declaredSrc_append hp), ?_⟩
        intro d' hd'
        rcases List.mem_cons.mp hd' with rfl | hd'
        · exact ⟨c, rfl, Or.inl (hmono _ hdecl)⟩
        · exact hcover d' hd'

theorem path_shape {p : List String} (h : 2 ≤ p.length) :
    ∃ c rest, p = c :: rest ∧ rest ≠ [] := by
  cases p with
  | nil => simp at h
  | cons c r =>
    cases r with
    | nil => simp at h
    | cons a b => exact ⟨c, a :: b, rfl, by simp⟩

theorem topFolder_of_shape {c : String} {rest : List String} (h : rest ≠ []) :
    topFolder (c :: rest) = [c] := by
  cases rest with
  | nil => exact absurd rfl h
  | cons a b => rfl

theorem goodFile_of_wf {es2 : List CPEntry} {f : JFile}
    (h1 : 2 ≤ f.path.length) (h2 : WfPathB f.path = true) : GoodFile es2 f := by
  obtain ⟨c, rest, hcr, hrne⟩ := path_shape h1
  refine ⟨c, rest, hcr, hrne, Or.inl ?_⟩
  rw [WfPathB, List.all_eq_true] at h2
  exact h2 c (by rw [hcr]; exact List.mem_cons_self c rest)

theorem goodFile_create_src {es2 : List CPEntry} {e : JFile}
    (hsp : ∃ tail, tail ≠ [] ∧ e.path = ["src"] ++ tail) : GoodFile es2 e := by
  obtain ⟨tail, htne, hpe⟩ := hsp
  exact ⟨"src", tail, hpe, htne, Or.inl (by decide)⟩

theorem goodFile_create_g {es : List CPEntry} {e : JFile} {g : List String}
    (hg : getSrcGo es = some g) (hgne : g ≠ [])
    (hsp : ∃ tail, tail ≠ [] ∧ e.path = g ++ tail) : GoodFile es e := by
  obtain ⟨tail, htne, hpe⟩ := hsp
  obtain ⟨c, g', rfl⟩ : ∃ c g', g = c :: g' := by
    cases g with
    | nil => exact absurd rfl hgne
    | cons c g' => exact ⟨c, g', rfl⟩
  refine ⟨c, g' ++ tail, by simpa using hpe, by simp [htne], Or.inr ?_⟩
  exact ⟨c :: g', getSrcGo_declared hg hgne, ⟨g', rfl⟩⟩

theorem mkdirD_files (fs : FS) (p : List String) :
    (mkdirD fs p).1.files = fs.files := by
  rw [mkdirD]
  split
  · rfl
  · rfl

theorem moveIntoD_files_sub {fs : FS} {q td : List String} {e : JFile}
    (he : e ∈ (moveIntoD fs q td).1.files) :
    e ∈ fs.files ∨
      ∃ g ∈ fs.files, e = { g with path := td ++ [q.getLast?.getD ""] } := by
  simp only [moveIntoD] at he
  split at he
  · split at he
    · exact Or.inl he
    · simp only [moveFile] at he
      split at he
      · exact Or.inl he
      · obtain ⟨g, hgf, hge⟩ := List.mem_map.mp he
        have hgmem : g ∈ fs.files := (List.mem_filter.mp hgf).1
        by_cases hgp : g.path = q
        · rw [if_pos hgp] at hge
          exact Or.inr ⟨g, hgmem, hge.symm⟩
        · rw [if_neg hgp] at hge
          subst hge
          exact Or.inl hgmem
  · exact Or.inl he

theorem csdStep_files {p : List String} {st st' : FS × List Act} {f : JFile}
    (h : csdStep p st f = some st') {e : JFile} (he : e ∈ st'.1.files) :
    e ∈ st.1.files ∨ ∃ tail, tail ≠ [] ∧ e.path = p ++ tail := by
  rw [csdStep] at h
  split at h
  · exact absurd h (by simp)
  · next pkg hpkg =>
    split at h
    · simp only [Option.some.injEq] at h
      subst h
      rcases moveIntoD_files_sub he with hin | ⟨g, hg, rfl⟩
      · exact Or.inl hin
      · exact Or.inr ⟨[f.path.getLast?.getD ""], by simp, by simp⟩
    · simp only [Option.some.injEq] at h
      subst h
      rcases moveIntoD_files_sub he with hin | ⟨g, hg, rfl⟩
      · rw [mkdirD_files] at hin
        exact Or.inl hin
      · exact Or.inr ⟨[pkg, f.path.getLast?.getD ""], by simp, by simp⟩
  · simp only [Option.some.injEq] at h
    subst h
    rcases moveIntoD_files_sub he with hin | ⟨g, hg, rfl⟩
    · exact Or.inl hin
    · exact Or.inr ⟨[f.path.getLast?.getD ""], by simp, by simp⟩

theorem csd_fold_files {p : List String} {Q : JFile → Prop} (L : List JFile) :
    ∀ st st', List.foldlM (csdStep p) st L = some st' →
      (∀ e ∈ st.1.files, Q e ∨ ∃ tail, tail ≠ [] ∧ e.path = p ++ tail) →
      ∀ e ∈ st'.1.files, Q e ∨ ∃ tail, tail ≠ [] ∧ e.path = p ++ tail := by
  induction L with
  | nil =>
    intro st st' h hs
    simp only [List.foldlM_nil, pure, Option.some.injEq] at h
    subst h
    exact hs
  | cons f fs ih =>
    intro st st' h hs
    rw [List.foldlM_cons] at h
    cases h1 : csdStep p st f with
    | none => rw [h1] at h; simp at h
    | some st1 =>
      rw [h1] at h
      simp only [Option.bind_eq_bind, Option.some_bind] at h
      refine ih st1 st' h ?_
      intro e he
      rcases csdStep_files h1 he with hin | htail
      · exact hs e hin
      · exact Or.inr htail

theorem create_src_dir_files {fs : FS} {p : List String} {fs2 : FS}
    {a2 : List Act} (h : create_src_dir fs p = some (fs2, a2)) :
    ∀ e ∈ fs2.files, e ∈ fs.files ∨ ∃ tail, tail ≠ [] ∧ e.path = p ++ tail := by
  rw [create_src_dir] at h
  intro e he
  exact csd_fold_files (Q := fun e => e ∈ fs.files) fs.files _ (fs2, a2) h
    (fun e he => Or.inl he) e he

theorem phaseCases_good {fl : Flags} {s s2 : St} {a2 : List Act}
    (h : phaseCases fl s = some (s2, a2)) (hc : fl.cErr = false)
    (hgood : ∀ f ∈ s.fs.files, 2 ≤ f.path.length ∧ WfPathB f.path = true) :
    ∃ es2, s2.cp = some (some es2) ∧ ∀ f ∈ s2.fs.files, GoodFile es2 f := by
  rw [phaseCases] at h
  split at h
  · next hT => rw [hc] at hT; exact absurd hT (by simp)
  · split at h
    · next cpf heq1 =>
      split at h
      · next sd hsd =>
        split at h
        · simp only [Option.some.injEq, Prod.mk.injEq] at h
          obtain ⟨rfl, -⟩ := h
          exact ⟨_, rfl, fun f hf => goodFile_of_wf (hgood f hf).1 (hgood f hf).2⟩
        · next esv =>
          split at h
          · simp at h
          · simp only [Option.some.injEq, Prod.mk.injEq] at h
            obtain ⟨rfl, -⟩ := h
            exact ⟨_, rfl, fun f hf => goodFile_of_wf (hgood f hf).1 (hgood f hf).2⟩
          · split at h
            · simp at h
            · next g hgg =>
              split at h
              · simp only [Option.some.injEq, Prod.mk.injEq] at h
                obtain ⟨rfl, -⟩ := h
                exact ⟨_, rfl,
                  fun f hf => goodFile_of_wf (hgood f hf).1 (hgood f hf).2⟩
              · simp only [Option.some.injEq, Prod.mk.injEq] at h
                obtain ⟨rfl, -⟩ := h
                exact ⟨esv, by rw [heq1],
                  fun f hf => goodFile_of_wf (hgood f hf).1 (hgood f hf).2⟩
      · split at h
        · split at h
          · simp only [Option.some.injEq, Prod.mk.injEq] at h
            obtain ⟨rfl, -⟩ := h
            exact ⟨_, rfl, fun f hf => goodFile_of_wf (hgood f hf).1 (hgood f hf).2⟩
          · next esv =>
            split at h
            · simp at h
            · simp only [Option.some.injEq, Prod.mk.injEq] at h
              obtain ⟨rfl, -⟩ := h
              exact ⟨_, rfl, fun f hf => goodFile_of_wf (hgood f hf).1 (hgood f hf).2⟩
            · simp only [Option.some.injEq, Prod.mk.injEq] at h
              obtain ⟨rfl, -⟩ := h
              exact ⟨esv, by rw [heq1],
                fun f hf => goodFile_of_wf (hgood f hf).1 (hgood f hf).2⟩
        · split at h
          · split at h
            · simp at h
            · next fs2 acr hcr =>
              simp only [Option.some.injEq, Prod.mk.injEq] at h
              obtain ⟨rfl, -⟩ := h
              refine ⟨_, rfl, ?_⟩
              intro f hf
              rcases create_src_dir_files hcr f hf with hin | htail
              · exact goodFile_of_wf (hgood f hin).1 (hgood f hin).2
              · exact goodFile_create_src htail
          · next esv =>
            split at h
            · simp at h
            · split at h
              · simp at h
              · next fs2 acr hcr =>
                simp only [Option.some.injEq, Prod.mk.injEq] at h
                obtain ⟨rfl, -⟩ := h
                refine ⟨_, rfl, ?_⟩
                intro f hf
                rcases create_src_dir_files hcr f hf with hin | htail
                · exact goodFile_of_wf (hgood f hin).1 (hgood f hin).2
                · exact goodFile_create_src htail
            · split at h
              · simp at h
              · next g hgg =>
                split at h
                · next hpstr =>
                  split at h
                  · simp at h
                  · next fs2 acr hcr =>
                    simp only [Option.some.injEq, Prod.mk.injEq] at h
                    obtain ⟨rfl, -⟩ := h
                    refine ⟨esv, by rw [heq1], ?_⟩
                    intro f hf
                    rcases create_src_dir_files hcr f hf with hin | htail
                    · exact goodFile_of_wf (hgood f hin).1 (hgood f hin).2
                    · refine goodFile_create_g hgg ?_ htail
                      intro hnil
                      rw [hnil] at hpstr
                      exact hpstr rfl
                · simp only [Option.some.injEq, Prod.mk.injEq] at h
                  obtain ⟨rfl, -⟩ := h
                  exact ⟨esv, by rw [heq1],
                    fun f hf => goodFile_of_wf (hgood f hf).1 (hgood f hf).2⟩
    · split at h
      · simp only [Option.some.injEq, Prod.mk.injEq] at h
        obtain ⟨rfl, -⟩ := h
        exact ⟨_, rfl, fun f hf => goodFile_of_wf (hgood f hf).1 (hgood f hf).2⟩
      · split at h
        · simp only [Option.some.injEq, Prod.mk.injEq] at h
          obtain ⟨rfl, -⟩ := h
          exact ⟨_, rfl, fun f hf => goodFile_of_wf (hgood f hf).1 (hgood f hf).2⟩
        · split at h
          · simp at h
          · next fs2 acr hcr =>
            simp only [Option.some.injEq, Prod.mk.injEq] at h
            obtain ⟨rfl, -⟩ := h
            refine ⟨_, rfl, ?_⟩
            intro f hf
            rcases create_src_dir_files hcr f hf with hin | htail
            · exact goodFile_of_wf (hgood f hin).1 (hgood f hin).2
            · exact goodFile_create_src htail

theorem check_cover {fs : FS} {es : List CPEntry} {fs' : FS}
    {es' : List CPEntry} {acts : List Act}
    (h : check_classpath_sources false fs es = some (fs', es', acts))
    (hfiles : ∀ f ∈ fs.files, GoodFile es f) :
    fs' = fs ∧
      ∀ f ∈ fs.files, ∃ c rest, f.path = c :: rest ∧ rest ≠ [] ∧
        topCovered c es' := by
  rw [check_classpath_sources] at h
  split at h
  · simp at h
  · next srcs hsrcs =>
    rw [if_neg (by simp)] at h
    have hmemsrc : ∀ p ∈ srcs, declaredSrc es p := by
      intro p hp
      rcases (getAllGo_mem hsrcs p).mp hp with hp | hp
      · simp at hp
      · exact hp
    split at h
    · next hempty =>
      simp only [Option.some.injEq] at h
      obtain ⟨rfl, rfl, -⟩ := h
      refine ⟨rfl, ?_⟩
      intro f hf
      exfalso
      have : topFolder f.path ∈ find_java_file_folders fs.files :=
        mem_find_java_file_folders.mpr ⟨f, hf, rfl⟩
      rw [hempty] at this
      simp at this
    · next hnonempty =>
      have hfold : ∀ d ∈ find_java_file_folders fs.files,
          ∃ f ∈ fs.files, topFolder f.path = d :=
        fun d hd => mem_find_java_file_folders.mp hd
      obtain ⟨hfs, hmono, hcover⟩ := checkGo_cover _ _ _ _ _ _ _ _ h
        (by
          intro d hd
          obtain ⟨f, hf, rfl⟩ := hfold d hd
          obtain ⟨c, rest, hcr, hrne, -⟩ := hfiles f hf
          rw [hcr, topFolder_of_shape hrne]
          simp)
        hmemsrc
        (by
          intro d hd
          obtain ⟨f, hf, rfl⟩ := hfold d hd
          obtain ⟨c, rest, hcr, hrne, hanchor⟩ := hfiles f hf
          rw [hcr, topFolder_of_shape hrne]
          refine ⟨c, rfl, ?_⟩
          rcases hanchor with hw | ⟨sp, hdecl, hpre⟩
          · exact Or.inl hw
          · refine Or.inr (coveredB_iff.mpr ?_)
            have hsmem : sp ∈ srcs := (getAllGo_mem hsrcs sp).mpr (Or.inr hdecl)
            by_cases hceq : [c] = sp
            · exact Or.inl (hceq ▸ hsmem)
            · exact Or.inr (Or.inr ⟨by simp, sp, hsmem, hceq, hpre⟩))
      refine ⟨hfs, ?_⟩
      intro f hf
      obtain ⟨c, rest, hcr, hrne, -⟩ := hfiles f hf
      have hd : topFolder f.path ∈ find_java_file_folders fs.files :=
        mem_find_java_file_folders.mpr ⟨f, hf, rfl⟩
      obtain ⟨c', hc', htop⟩ := hcover _ hd
      rw [hcr, topFolder_of_shape hrne] at hc'
      cases hc'
      exact ⟨c, rest, hcr, hrne, htop⟩

theorem phaseProject_keep (fl : Flags) (s : St) :
    (phaseProject fl s).1.fs = s.fs ∧ (phaseProject fl s).1.cp = s.cp := by
  rw [phaseProject]
  split
  · exact ⟨rfl, rfl⟩
  · split
    · split
      · exact ⟨rfl, rfl⟩
      · exact ⟨rfl, rfl⟩
    · exact ⟨rfl, rfl⟩

theorem phaseCheck_cover {fl : Flags} {s : St} {r : St × List Act}
    (h : phaseCheck fl s = some r) (hc : fl.cErr = false) (hj : fl.jErr = false)
    {es2 : List CPEntry} (hcp : s.cp = some (some es2))
    (hgood : ∀ f ∈ s.fs.files, GoodFile es2 f) :
    ∃ es3, r.1.cp = some (some es3) ∧ r.1.fs = s.fs ∧
      ∀ f ∈ r.1.fs.files, ∃ c rest, f.path = c :: rest ∧ rest ≠ [] ∧
        topCovered c es3 := by
  rw [phaseCheck] at h
  rw [if_neg (by simp [hc])] at h
  simp only [hcp, hj] at h
  split at h
  · simp at h
  · next fs3 es3 a3 heqc =>
    simp only [Option.some.injEq] at h
    subst h
    obtain ⟨hfs, hcov⟩ := check_cover heqc hgood
    refine ⟨es3, rfl, by simpa using hfs, ?_⟩
    intro f hf
    have : f ∈ s.fs.files := by
      rw [← hfs]
      simpa using hf
    exact hcov f this

theorem phaseDelete_keep (s : St) :
    (phaseDelete s).1.cp = s.cp ∧
      ∀ f ∈ (phaseDelete s).1.fs.files, f ∈ s.fs.files := by
  rw [phaseDelete, delete_module_info_java]
  split
  · exact ⟨rfl, fun f hf => (List.mem_filter.mp hf).1⟩
  · exact ⟨rfl, fun f hf => hf⟩

theorem phaseRename_keep {nm : String} {s : St} {r : St × List Act}
    (h : phaseRename nm s = some r) : r.1.fs = s.fs ∧ r.1.cp = s.cp := by
  rw [phaseRename] at h
  split at h
  · simp at h
  · simp only [Option.some.injEq] at h
    subst h
    exact ⟨rfl, rfl⟩

/-- C1 (amended): after an engine run that succeeds, with the classpath
search and the source-folder scan not erroring, on a tree with no root-level
source file whose paths are made of well-formed components, the final
classpath exists and parses, and every directory holding a source file other
than the root has its top-level component weakly covered: the component
itself is declared, or the root is declared, or the component is a strict
ancestor of a declared entry. -/
theorem C1_theorem (s0 : St) (fl : Flags) (nm : String) (s' : St)
    (acts : List Act) (hrun : runEngine fl nm s0 = (some s', acts))
    (hc : fl.cErr = false) (hj : fl.jErr = false)
    (hnaked : ∀ f ∈ s0.fs.files, 2 ≤ f.path.length)
    (hwfp : ∀ f ∈ s0.fs.files, WfPathB f.path = true) :
    ∃ es, s'.cp = some (some es) ∧
      ∀ f ∈ s'.fs.files, ∃ c rest, f.path = c :: rest ∧ rest ≠ [] ∧
        topCovered c es := by
  rw [runEngine] at hrun
  obtain ⟨hpfs, hpcp⟩ := phaseProject_keep fl s0
  split at hrun
  · simp at hrun
  · next r2 heq2 =>
    split at hrun
    · simp at hrun
    · next r3 heq3 =>
      split at hrun
      · simp at hrun
      · next r5 heq5 =>
        simp only [Prod.mk.injEq, Option.some.injEq] at hrun
        obtain ⟨rfl, -⟩ := hrun
        have hgood1 : ∀ f ∈ (phaseProject fl s0).1.fs.files,
            2 ≤ f.path.length ∧ WfPathB f.path = true := by
          rw [hpfs]
          exact fun f hf => ⟨hnaked f hf, hwfp f hf⟩
        obtain ⟨es2, hcp2, hgood2⟩ := phaseCases_good heq2 hc hgood1
        obtain ⟨es3, hcp3, hfs3, hcov3⟩ :=
          phaseCheck_cover heq3 hc hj hcp2 hgood2
        obtain ⟨hdcp, hdfiles⟩ := phaseDelete_keep r3.1
        obtain ⟨hrfs, hrcp⟩ := phaseRename_keep heq5
        refine ⟨es3, ?_, ?_⟩
        · rw [hrcp, hdcp, hcp3]
        · intro f hf
          rw [hrfs] at hf
          exact hcov3 f (hdfiles f hf)

/-- C1 (counterexample): the run on `c1tree` succeeds without a classpath
search error, ends with the file still at `a/b/F.java`, yet the directory
`a/b` is not covered in the spec's sense: neither it, nor its parent `a`,
nor any ancestor appears among the declared source paths `{a/x}`.  (`a` is
merely a *prefix of* the declared entry, which the code's check accepts but
the spec's coverage definition does not.) -/
theorem C1_counterexample :
    ∃ s' acts,
      runEngine ⟨false, false, false, false⟩ "n" c1tree = (some s', acts) ∧
        (⟨["a", "b", "F.java"], ["// c"]⟩ : JFile) ∈ s'.fs.files ∧
        pparent ["a", "b", "F.java"] = ["a", "b"] ∧
        ∃ es srcs, s'.cp = some (some es) ∧ getAllGo es [] = some srcs ∧
          specCoveredB ["a", "b"] srcs = false := by
  refine ⟨_, _, rfl, by decide, by decide, _, _, rfl, rfl, by decide⟩

/-- C1 witness: the amended coverage invariant applied to Scenario B. -/
theorem C1_witness :
    ∃ es,
      (((runEngine ⟨false, false, false, false⟩ "w" c1wtree).1.getD c1wtree)).cp =
          some (some es) ∧
        ∀ f ∈ (((runEngine ⟨false, false, false, false⟩ "w" c1wtree).1.getD
            c1wtree)).fs.files,
          ∃ c rest, f.path = c :: rest ∧ rest ≠ [] ∧ topCovered c es := by
  exact C1_theorem c1wtree ⟨false, false, false, false⟩ "w"
    ((runEngine ⟨false, false, false, false⟩ "w" c1wtree).1.getD c1wtree)
    (runEngine ⟨false, false, false, false⟩ "w" c1wtree).2
    (by decide) rfl rfl (by decide) (by decide)
